import Mathlib

/-!
Verification of the checkpoint-indexing core of `sui-for-suiql`.

This file gives a shallow embedding, in Lean, of the functions of
`src/crates/sui-indexer/src/handlers/checkpoint_handler_v2.rs` and
`src/crates/sui-indexer/src/store/pg_indexer_store_v2.rs` that the spec's
claims are about, and proves (or refutes) each claim over that embedding.

Modelling conventions:
- machine integers (`u64`, `SequenceNumber`, …) are `Nat`; digests, addresses
  and opaque payloads are `Nat` as well;
- `HashMap`s that are only read through `get` are modelled as functions
  `key → Option value`; the `HashMap` of `get_objects_to_commit`, whose values
  are extracted, is modelled as a key-unique association list;
- Rust panics, failed `assert!`s and `.expect(..)` calls are modelled by
  `Option`/`Except` failure of the embedded function;
- external collaborators that the repository only calls (the full-node RPC
  client, Diesel, `get_sui_system_state`, BCS, the Move struct parser behind
  `try_create_dynamic_field_info`) are abstracted as function parameters of
  the embedded functions;
- row types from `types_v2` (not part of the three source files) are modelled
  from the spec's data-model section, with exactly the fields the embedded
  code touches.
-/

/-! ## Base data model -/

abbrev ObjectID := Nat

abbrev SuiAddress := Nat

/-- Object payload: the `Data` variant of `sui_types::object::Object`; the
embedded code only distinguishes `Package` from Move objects
(`index_packages`). Contents are opaque. -/
inductive ObjectData where
  | moveObject (contents : Nat)
  | package (pkg : Nat)
deriving DecidableEq

/-- `sui_types::object::Object`, reduced to the accessors the embedded code
uses: `id()`, `version()`, `digest()`, `.data`. -/
structure Object where
  id : ObjectID
  version : Nat
  digest : Nat
  data : ObjectData
deriving DecidableEq

/-- `ObjectRef = (ObjectID, SequenceNumber, ObjectDigest)`; the code reads
components `.0` and `.1`. -/
structure ObjectRef where
  id : ObjectID
  version : Nat
  digest : Nat
deriving DecidableEq

/-- `sui_types::object::Owner`. -/
inductive Owner where
  | addressOwner (addr : SuiAddress)
  | objectOwner (addr : SuiAddress)
  | shared (initial_shared_version : Nat)
  | immutable
deriving DecidableEq

/-- The write kind attached to each entry of `all_changed_objects()`. -/
inductive WriteKind where
  | mutate
  | create
  | unwrap
deriving DecidableEq

/-- `TransactionEffects`, reduced to the accessors used by
`index_checkpoint`, `get_deleted_objects` and the `TxIndex` construction:
`all_changed_objects()`, `deleted()`, `wrapped()`,
`unwrapped_then_deleted()`. -/
structure TransactionEffects where
  all_changed_objects : List (ObjectRef × Owner × WriteKind)
  deleted : List ObjectRef
  wrapped : List ObjectRef
  unwrapped_then_deleted : List ObjectRef
deriving DecidableEq

/-- One element of `TransactionData::input_objects()`; the code maps each to
`object_id()`. -/
structure InputObjectKind where
  object_id : ObjectID
deriving DecidableEq

/-- `TransactionData`, reduced to the accessors used in
`index_checkpoint_and_epoch`: `sender()`, `input_objects()`, `move_calls()`. -/
structure TransactionData where
  sender : SuiAddress
  input_objects : List InputObjectKind
  move_calls : List (ObjectID × String × String)
deriving DecidableEq

/-- The per-checkpoint transaction envelope: `tx.digest()` and
`tx.transaction_data()`. -/
structure Transaction where
  digest : Nat
  transaction_data : TransactionData
deriving DecidableEq

/-- `SystemEpochInfoEvent` as decoded by `bcs::from_bytes` in `index_epoch`
(the fields copied into `EndOfEpochInfo`). -/
structure SystemEpochInfoEvent where
  protocol_version : Nat
  reference_gas_price : Nat
  total_stake : Nat
  storage_fund_reinvestment : Nat
  storage_charge : Nat
  storage_rebate : Nat
  leftover_storage_fund_inflow : Nat
  stake_subsidy_amount : Nat
  storage_fund_balance : Nat
  total_gas_fees : Nat
  total_stake_rewards_distributed : Nat
deriving DecidableEq

/-- One event of a transaction's event list. `is_system_epoch_info_event` is
the predicate `index_epoch` filters with; `contents` stands for the payload
that `bcs::from_bytes::<SystemEpochInfoEvent>` decodes (BCS itself is outside
the embedding, so the decoded value is carried directly). -/
structure Event where
  is_system_epoch_info_event : Bool
  contents : SystemEpochInfoEvent
deriving DecidableEq

/-- `TransactionEvents` (`events.data`). -/
structure TransactionEvents where
  data : List Event
deriving DecidableEq

/-- The `end_of_epoch_data` payload of a checkpoint summary: cloned opaquely
by `index_epoch`. -/
abbrev EndOfEpochData := Nat

/-- `CheckpointSummary`, reduced to the fields the embedded code reads. -/
structure CheckpointSummary where
  sequence_number : Nat
  epoch : Nat
  timestamp_ms : Nat
  network_total_transactions : Nat
  end_of_epoch_data : Option EndOfEpochData
deriving DecidableEq

/-- `sui_rest_api::CheckpointData`: the input of one checkpoint.
`checkpoint_contents` is opaque (only forwarded). -/
structure CheckpointData where
  transactions : List (Transaction × TransactionEffects × Option TransactionEvents)
  checkpoint_summary : CheckpointSummary
  checkpoint_contents : Nat
  objects : List Object
deriving DecidableEq

/-! ## Derived row types (modelled from the spec's data-model section) -/

/-- Modelled from the spec: `IndexedPackage` = `{package_id,
move_package_bytes}`; the package bytes are opaque. -/
structure IndexedPackage where
  package_id : ObjectID
  move_package : Nat
deriving DecidableEq

/-- Modelled from the spec: `IndexedObject` = `{checkpoint_seq, object,
dynamic_field_info?}`. The dynamic-field payload is opaque (`Nat`): its
construction goes through the external Move struct parser. -/
structure IndexedObject where
  checkpoint_sequence_number : Nat
  object : Object
  df_info : Option Nat
deriving DecidableEq

/-- `IndexedObject::from_object`. -/
def IndexedObject.from_object (checkpoint_sequence_number : Nat) (object : Object)
    (df_info : Option Nat) : IndexedObject :=
  { checkpoint_sequence_number, object, df_info }

/-- The `object_id` column of an `IndexedObject` row, as read by
`get_objects_to_commit`. -/
def IndexedObject.object_id (io : IndexedObject) : ObjectID :=
  io.object.id

/-- The `object_version` column of an `IndexedObject` row, as read by
`get_objects_to_commit`. -/
def IndexedObject.object_version (io : IndexedObject) : Nat :=
  io.object.version

/-- Modelled from the spec: `TxIndex` = `{tx_seq, tx_digest,
input_object_ids, changed_object_ids, senders, recipients, move_calls}`. -/
structure TxIndex where
  tx_sequence_number : Nat
  transaction_digest : Nat
  input_objects : List ObjectID
  changed_objects : List ObjectID
  senders : List SuiAddress
  recipients : List SuiAddress
  move_calls : List (ObjectID × String × String)
deriving DecidableEq

/-- Modelled from the spec: `IndexedTransaction` row; only the scalar columns
are carried (payload columns are opaque to every claim). -/
structure IndexedTransaction where
  tx_sequence_number : Nat
  tx_digest : Nat
  checkpoint_sequence_number : Nat
  timestamp_ms : Nat
deriving DecidableEq

/-- Modelled from the spec: `IndexedEvent` row; scalar columns only. -/
structure IndexedEvent where
  tx_sequence_number : Nat
  event_sequence_number : Nat
  transaction_digest : Nat
  timestamp_ms : Nat
deriving DecidableEq

/-- Modelled from the spec: `IndexedCheckpoint` header row, reduced to the
fields the committer and the store read. -/
structure IndexedCheckpoint where
  sequence_number : Nat
  epoch : Nat
  timestamp_ms : Nat
  network_total_transactions : Nat
deriving DecidableEq

/-- `sui_json_rpc_types::EndOfEpochInfo` as filled by `index_epoch`. -/
structure EndOfEpochInfo where
  last_checkpoint_id : Nat
  epoch_end_timestamp : Nat
  protocol_version : Nat
  reference_gas_price : Nat
  total_stake : Nat
  storage_fund_reinvestment : Nat
  storage_charge : Nat
  storage_rebate : Nat
  leftover_storage_fund_inflow : Nat
  stake_subsidy_amount : Nat
  storage_fund_balance : Nat
  total_gas_fees : Nat
  total_stake_rewards_distributed : Nat
deriving DecidableEq

/-- Modelled from the spec: `IndexedEpochInfo` (fields as written by
`index_epoch`; `validators` is an opaque list). -/
structure IndexedEpochInfo where
  epoch : Nat
  first_checkpoint_id : Nat
  epoch_start_timestamp : Nat
  validators : List Nat
  reference_gas_price : Nat
  protocol_version : Nat
  epoch_total_transactions : Nat
  end_of_epoch_info : Option EndOfEpochInfo
  end_of_epoch_data : Option EndOfEpochData
deriving DecidableEq

/-- Modelled from the spec: `IndexedEndOfEpochInfo` (the record closing the
ended epoch). -/
structure IndexedEndOfEpochInfo where
  epoch : Nat
  end_of_epoch_info : EndOfEpochInfo
  end_of_epoch_data : EndOfEpochData
  epoch_total_transactions : Nat
deriving DecidableEq

/-- `store::TemporaryEpochStoreV2`. -/
structure TemporaryEpochStoreV2 where
  last_epoch : Option IndexedEndOfEpochInfo
  new_epoch : IndexedEpochInfo
deriving DecidableEq

/-- `store::TransactionObjectChangesV2`. -/
structure TransactionObjectChangesV2 where
  changed_objects : List IndexedObject
  deleted_objects : List ObjectRef
deriving DecidableEq

/-- `store::TemporaryCheckpointStoreV2`: the per-checkpoint batch handed to
the commit task. -/
structure TemporaryCheckpointStoreV2 where
  checkpoint : IndexedCheckpoint
  transactions : List IndexedTransaction
  events : List IndexedEvent
  tx_indices : List TxIndex
  object_changes : TransactionObjectChangesV2
  packages : List IndexedPackage
deriving DecidableEq

/-- `errors::IndexerError`, reduced to the variants the embedded code
constructs; messages are opaque. -/
inductive IndexerError where
  | fullNodeReading (msg : Nat)
  | dataTransformation (msg : Nat)
  | storeRead (msg : Nat)
  | uncategorized (msg : Nat)
deriving DecidableEq

/-! ## Transaction-sequence bookkeeping (`CheckpointHandler::process_checkpoint`) -/

/-- The sequence-number bookkeeping of `process_checkpoint`
(checkpoint_handler_v2.rs lines 125-149), for one checkpoint:

* first `checkpoint_starting_tx_seq_numbers.insert(seq + 1,
  network_total_transactions + 1)`;
* then the checkpoint's starting sequence: `0` when `seq = 0`, else the
  in-memory map's entry for `seq` when present, else
  `get_checkpoint_ending_tx_sequence_number(seq - 1) + 1`, panicking
  (modelled `none`) when the store has no row either;
* each of the checkpoint's `tx_count` transactions is then assigned
  `starting_tx_sequence_number + idx` in `index_checkpoint_and_epoch`.

The map is modelled as a function, the store read as
`store_ending_tx_seq : Nat → Option Nat`. Returns the assigned sequence
numbers and the updated map. -/
def processCheckpointSeqs (store_ending_tx_seq : Nat → Option Nat)
    (seq_map : Nat → Option Nat) (checkpoint_seq network_total_transactions tx_count : Nat) :
    Option (List Nat × (Nat → Option Nat)) :=
  let seq_map2 : Nat → Option Nat := fun k =>
    if k = checkpoint_seq + 1 then some (network_total_transactions + 1) else seq_map k
  let start? : Option Nat :=
    if checkpoint_seq = 0 then some 0
    else
      match seq_map2 checkpoint_seq with
      | some s => some s
      | none =>
        match store_ending_tx_seq (checkpoint_seq - 1) with
        | some ending => some (ending + 1)
        | none => none
  start?.map (fun start => ((List.range tx_count).map (fun i => start + i), seq_map2))

/-- Drives `processCheckpointSeqs` over checkpoints `seq, seq+1, …` whose
transaction counts are `tx_counts`, threading the in-memory map and the
running `network_total_transactions` (the total including the current
checkpoint, as the checkpoint summary carries it). -/
def runCheckpointsAux (store_ending_tx_seq : Nat → Option Nat) (seq_map : Nat → Option Nat)
    (seq total : Nat) : List Nat → Option (List (List Nat))
  | [] => some []
  | t :: rest =>
    match processCheckpointSeqs store_ending_tx_seq seq_map seq (total + t) t with
    | none => none
    | some (seqs, seq_map2) =>
      match runCheckpointsAux store_ending_tx_seq seq_map2 (seq + 1) (total + t) rest with
      | none => none
      | some out => some (seqs :: out)

/-- A full run from genesis: checkpoints `0..tx_counts.length` in order, with
an initially empty in-memory map. Returns the per-checkpoint lists of
assigned `tx_sequence_number`s. -/
def runCheckpoints (store_ending_tx_seq : Nat → Option Nat) (tx_counts : List Nat) :
    Option (List (List Nat)) :=
  runCheckpointsAux store_ending_tx_seq (fun _ => none) 0 0 tx_counts

/-! ## `InMemObjectCache` and the `ObjectProvider` impl for `TxChangesProcessor` -/

/-- `InMemObjectCache`: `id_map` and `seq_map` as lookup functions (the
`packages` map only feeds the module resolver, which no claim touches, and is
omitted). -/
structure InMemObjectCache where
  id_map : ObjectID → Option Object
  seq_map : ObjectID → Nat → Option Object

/-- `InMemObjectCache::new()`. -/
def InMemObjectCache.new : InMemObjectCache :=
  { id_map := fun _ => none, seq_map := fun _ _ => none }

/-- `InMemObjectCache::insert_object`: writes `id_map[obj.id()]` and
`seq_map[(obj.id(), obj.version())]`, unconditionally overwriting. -/
def InMemObjectCache.insert_object (c : InMemObjectCache) (object : Object) : InMemObjectCache :=
  { id_map := fun i => if i = object.id then some object else c.id_map i,
    seq_map := fun i v =>
      if i = object.id ∧ v = object.version then some object else c.seq_map i v }

/-- `InMemObjectCache::get(id, version?)`: exact-version lookup when a
version is given, latest-inserted lookup otherwise. -/
def InMemObjectCache.get (c : InMemObjectCache) (id : ObjectID) (version : Option Nat) :
    Option Object :=
  match version with
  | some v => c.seq_map id v
  | none => c.id_map id

/-- Well-formedness of the cache: every exact-version entry is stored under
its own id and version. It holds for `new` and is preserved by
`insert_object`. -/
def CacheWF (c : InMemObjectCache) : Prop :=
  ∀ i v o, c.seq_map i v = some o → o.id = i ∧ o.version = v

/-- The lookup tiers of the `ObjectProvider` impl, recorded as a trace. -/
inductive LookupTier where
  | cache
  | store
  | rpc
deriving DecidableEq

/-- `TxChangesProcessor::get_object` (the `ObjectProvider` exact-version
lookup, checkpoint_handler_v2.rs lines 900-938): cache at `(id, version)`,
then `Store.get_object(id, Some(version))` (errors propagate), then the
remote RPC `try_get_parsed_past_object(id, version, bcs_lossless)`; the RPC
call together with its `into_object`/`try_into` conversions (external SDK
code) is abstracted as a parameter already returning
`Except IndexerError Object`. The second component records which tiers were
consulted. -/
def tx_get_object (object_cache : InMemObjectCache)
    (state_get_object : ObjectID → Option Nat → Except IndexerError (Option Object))
    (try_get_parsed_past_object : ObjectID → Nat → Except IndexerError Object)
    (id version : Nat) : Except IndexerError Object × List LookupTier :=
  match object_cache.get id (some version) with
  | some o => (.ok o, [.cache])
  | none =>
    match state_get_object id (some version) with
    | .error e => (.error e, [.cache, .store])
    | .ok (some object) => (.ok object, [.cache, .store])
    | .ok none =>
      match try_get_parsed_past_object id version with
      | .error e => (.error e, [.cache, .store, .rpc])
      | .ok object => (.ok object, [.cache, .store, .rpc])

/-- Failure modes of `find_object_lt_or_eq_version`: a propagated store read
error, the `panic!("Object {} is not found")` on a `None` store result, and
the `assert!(object.version() <= *version)`. -/
inductive FindError where
  | storeRead (e : IndexerError)
  | storeObjectMissing
  | versionAssertFailed
deriving DecidableEq

/-- `TxChangesProcessor::find_object_lt_or_eq_version`
(checkpoint_handler_v2.rs lines 940-981): exact-version cache lookup; then
latest cache lookup, returned only when its version is `≤ version`
(otherwise fall through); then `Store.get_object(id, None)` with a panic on
`None` and a version assertion on `Some`. The remote RPC is never consulted,
so the trace never contains `.rpc`. -/
def tx_find_object_lt_or_eq_version (object_cache : InMemObjectCache)
    (state_get_object : ObjectID → Option Nat → Except IndexerError (Option Object))
    (id version : Nat) : Except FindError (Option Object) × List LookupTier :=
  let storeStep : List LookupTier → Except FindError (Option Object) × List LookupTier :=
    fun tr =>
      match state_get_object id none with
      | .error e => (.error (.storeRead e), tr ++ [.store])
      | .ok none => (.error .storeObjectMissing, tr ++ [.store])
      | .ok (some object) =>
        if object.version ≤ version then (.ok (some object), tr ++ [.store])
        else (.error .versionAssertFailed, tr ++ [.store])
  match object_cache.get id (some version) with
  | some o => (.ok (some o), [.cache])
  | none =>
    match object_cache.get id none with
    | some o =>
      if o.version ≤ version then (.ok (some o), [.cache, .cache])
      else storeStep [.cache, .cache]
    | none => storeStep [.cache, .cache]

/-! ## `get_deleted_objects`, `get_latest_objects`, `index_packages` -/

/-- `get_deleted_objects` (checkpoint_handler_v2.rs lines 984-992): the
chained `deleted`, `wrapped` and `unwrapped_then_deleted` refs of one
transaction's effects. -/
def get_deleted_objects (effects : TransactionEffects) : List ObjectRef :=
  effects.deleted ++ effects.wrapped ++ effects.unwrapped_then_deleted

/-- One `for` step of `get_latest_objects` (checkpoint_handler_v2.rs lines
994-1016): a vacant entry is filled; an occupied entry is replaced — pushing
the superseded `(id, version)` onto `discarded_versions` — only when the
incoming version is strictly greater. -/
def latestStep (acc : (ObjectID → Option Object) × List (ObjectID × Nat)) (object : Object) :
    (ObjectID → Option Object) × List (ObjectID × Nat) :=
  match acc.1 object.id with
  | none => (fun i => if i = object.id then some object else acc.1 i, acc.2)
  | some e =>
    if e.version < object.version then
      (fun i => if i = object.id then some object else acc.1 i, (e.id, e.version) :: acc.2)
    else acc

/-- `get_latest_objects`: `(latest_objects, discarded_versions)` computed by
folding `latestStep` over the checkpoint's object list. The `HashMap` is
modelled as a lookup function, the `HashSet` as a list read by membership. -/
def get_latest_objects (objects : List Object) :
    (ObjectID → Option Object) × List (ObjectID × Nat) :=
  objects.foldl latestStep (fun _ => none, [])

/-- `CheckpointHandler::index_packages`: the checkpoint objects whose data
variant is `Package`, as `IndexedPackage` rows. -/
def index_packages (data : CheckpointData) : List IndexedPackage :=
  data.objects.filterMap (fun o =>
    match o.data with
    | ObjectData.package p => some { package_id := o.id, move_package := p }
    | ObjectData.moveObject _ => none)

/-! ## `CheckpointHandler::index_checkpoint` (object-change set) -/

/-- The abstract type of `try_create_dynamic_field_info object &objects
&module_resolver`: the real function parses the object's Move struct through
the external module resolver; the embedding takes it as a parameter. An
`Except` error models the `IndexerResult` error that
`.expect("failed to create dynamic field info")` panics on. -/
abbrev TryDF := Object → (ObjectID → Option Object) → Except Unit (Option Nat)

/-- The `filter_map` body of `index_checkpoint` over one transaction's
`all_changed_objects` entries (checkpoint_handler_v2.rs lines 576-603):
skip refs in `discarded_versions ∪ deleted_object_ids`; look the id up in
`latest_objects` (a miss is the `panic!("object … not found in
CheckpointData")`, modelled `.error`); `assert_eq!(oref.1, object.version())`;
run `try_create_dynamic_field_info`; emit `IndexedObject::from_object`. -/
def processChangedRefs (tryDF : TryDF) (checkpoint_seq : Nat)
    (latest : ObjectID → Option Object) (discarded : List (ObjectID × Nat))
    (deleted_ids : List (ObjectID × Nat)) :
    List (ObjectRef × Owner × WriteKind) → Except Unit (List IndexedObject)
  | [] => .ok []
  | t :: rest =>
    let oref := t.1
    if (oref.id, oref.version) ∈ discarded ∨ (oref.id, oref.version) ∈ deleted_ids then
      processChangedRefs tryDF checkpoint_seq latest discarded deleted_ids rest
    else
      match latest oref.id with
      | none => .error ()
      | some object =>
        if oref.version = object.version then
          match tryDF object latest with
          | .error _ => .error ()
          | .ok df_info =>
            match processChangedRefs tryDF checkpoint_seq latest discarded deleted_ids rest with
            | .error e => .error e
            | .ok out => .ok (IndexedObject.from_object checkpoint_seq object df_info :: out)
        else .error ()

/-- The `flat_map` of `index_checkpoint` over the checkpoint's transactions. -/
def processTxsChangedObjects (tryDF : TryDF) (checkpoint_seq : Nat)
    (latest : ObjectID → Option Object) (discarded : List (ObjectID × Nat))
    (deleted_ids : List (ObjectID × Nat)) :
    List (Transaction × TransactionEffects × Option TransactionEvents) →
    Except Unit (List IndexedObject)
  | [] => .ok []
  | (_, fx, _) :: rest =>
    match processChangedRefs tryDF checkpoint_seq latest discarded deleted_ids
        fx.all_changed_objects with
    | .error e => .error e
    | .ok head =>
      match processTxsChangedObjects tryDF checkpoint_seq latest discarded deleted_ids rest with
      | .error e => .error e
      | .ok tail => .ok (head ++ tail)

/-- `CheckpointHandler::index_checkpoint` (checkpoint_handler_v2.rs lines
536-615): packages, the deleted-object refs of all transactions, the
per-checkpoint `(latest_objects, discarded_versions)` split, and the
changed-object set. The module-resolver construction is inside `tryDF`. -/
def index_checkpoint (tryDF : TryDF) (data : CheckpointData) :
    Except Unit (TransactionObjectChangesV2 × List IndexedPackage) :=
  let packages := index_packages data
  let checkpoint_seq := data.checkpoint_summary.sequence_number
  let deleted_objects := data.transactions.flatMap (fun t => get_deleted_objects t.2.1)
  let deleted_object_ids := deleted_objects.map (fun o => (o.id, o.version))
  let latest := get_latest_objects data.objects
  match processTxsChangedObjects tryDF checkpoint_seq latest.1 latest.2 deleted_object_ids
      data.transactions with
  | .error e => .error e
  | .ok changed_objects =>
    .ok ({ changed_objects, deleted_objects }, packages)

/-! ## `TxIndex` rows (per-transaction loop of `index_checkpoint_and_epoch`) -/

/-- `itertools::unique()` over addresses: keep the first occurrence of each
element, tracking the already-seen set. -/
def uniqueFirstAux (seen : List SuiAddress) : List SuiAddress → List SuiAddress
  | [] => []
  | a :: rest =>
    if a ∈ seen then uniqueFirstAux seen rest
    else a :: uniqueFirstAux (a :: seen) rest

/-- The owner match of the `recipients` computation: `Owner::AddressOwner`
yields its address, every other owner kind is dropped. -/
def ownerAddress : Owner → Option SuiAddress
  | Owner.addressOwner address => some address
  | _ => none

/-- The `AddressOwner` owners of `all_changed_objects()`, in sequence order
(the `filter_map` of the `recipients` computation). -/
def changedObjectAddressOwners (fx : TransactionEffects) : List SuiAddress :=
  fx.all_changed_objects.filterMap (fun t => ownerAddress t.2.1)

/-- The `recipients` of one transaction (checkpoint_handler_v2.rs lines
477-485): `AddressOwner` owners of `all_changed_objects()`, deduplicated by
`unique()`. -/
def txRecipients (fx : TransactionEffects) : List SuiAddress :=
  uniqueFirstAux [] (changedObjectAddressOwners fx)

/-- The `TxIndex` row built for one transaction (checkpoint_handler_v2.rs
lines 458-502). -/
def mkTxIndex (tx_sequence_number : Nat) (tx : Transaction) (fx : TransactionEffects) : TxIndex :=
  { tx_sequence_number,
    transaction_digest := tx.digest,
    input_objects := tx.transaction_data.input_objects.map InputObjectKind.object_id,
    changed_objects := fx.all_changed_objects.map (fun t => t.1.id),
    senders := [tx.transaction_data.sender],
    recipients := txRecipients fx,
    move_calls := tx.transaction_data.move_calls }

/-- The `db_indices` list of `index_checkpoint_and_epoch`: the transaction at
index `idx` gets `tx_sequence_number = starting_tx_sequence_number + idx`. -/
def index_tx_indices (starting_tx_sequence_number : Nat) :
    List (Transaction × TransactionEffects × Option TransactionEvents) → List TxIndex
  | [] => []
  | (tx, fx, _) :: rest =>
    mkTxIndex starting_tx_sequence_number tx fx ::
      index_tx_indices (starting_tx_sequence_number + 1) rest

/-! ## `CheckpointHandler::index_epoch` and the store's epoch read -/

/-- Failure modes of `index_epoch`: a `get_sui_system_state` error, the
`panic!("Can't find SystemEpochInfoEvent …")`, and a store read error from
`get_network_total_transactions_previous_epoch`. (The `bcs::from_bytes`
decoding is carried inside `Event.contents`.) -/
inductive EpochIndexError where
  | systemStateRead (e : IndexerError)
  | missingEpochEvent
  | storeRead (e : IndexerError)
deriving DecidableEq

/-- `SuiSystemStateSummary`, reduced to the fields `index_epoch` reads. -/
structure SuiSystemStateSummary where
  epoch : Nat
  epoch_start_timestamp_ms : Nat
  active_validators : List Nat
  reference_gas_price : Nat
  protocol_version : Nat
deriving DecidableEq

/-- The event search of `index_epoch` (checkpoint_handler_v2.rs lines
302-312): flat-map each transaction's optional events to their data and take
the first `SystemEpochInfoEvent`. -/
def find_epoch_event
    (transactions : List (Transaction × TransactionEffects × Option TransactionEvents)) :
    Option Event :=
  (transactions.flatMap (fun t =>
    match t.2.2 with
    | some events => events.data
    | none => [])).find? (fun ev => ev.is_system_epoch_info_event)

/-- `CheckpointHandler::index_epoch` (checkpoint_handler_v2.rs lines
255-363). `get_system_state` abstracts the external
`get_sui_system_state(&checkpoint_object_store)…into_sui_system_state_summary()`
(reading the system-state object out of the checkpoint's objects);
`state_get_ntt_prev_epoch` abstracts
`Store.get_network_total_transactions_previous_epoch`. -/
def index_epoch
    (state_get_ntt_prev_epoch : Nat → Except IndexerError Nat)
    (get_system_state : List Object → Except IndexerError SuiSystemStateSummary)
    (data : CheckpointData) : Except EpochIndexError (Option TemporaryEpochStoreV2) :=
  if data.checkpoint_summary.sequence_number = 0 then
    match get_system_state data.objects with
    | .error e => .error (.systemStateRead e)
    | .ok system_state =>
      .ok (some
        { last_epoch := none,
          new_epoch :=
            { epoch := 0,
              first_checkpoint_id := 0,
              epoch_start_timestamp := system_state.epoch_start_timestamp_ms,
              validators := system_state.active_validators,
              reference_gas_price := system_state.reference_gas_price,
              protocol_version := system_state.protocol_version,
              epoch_total_transactions := 0,
              end_of_epoch_info := none,
              end_of_epoch_data := none } })
  else
    match data.checkpoint_summary.end_of_epoch_data with
    | none => .ok none
    | some eod =>
      match get_system_state data.objects with
      | .error e => .error (.systemStateRead e)
      | .ok system_state =>
        match find_epoch_event data.transactions with
        | none => .error .missingEpochEvent
        | some epoch_event =>
          let event := epoch_event.contents
          let validators := system_state.active_validators
          let last_epoch := system_state.epoch - 1
          match state_get_ntt_prev_epoch last_epoch with
          | .error e => .error (.storeRead e)
          | .ok network_tx_count_prev_epoch =>
            let last_end_of_epoch_info : EndOfEpochInfo :=
              { last_checkpoint_id := data.checkpoint_summary.sequence_number,
                epoch_end_timestamp := data.checkpoint_summary.timestamp_ms,
                protocol_version := event.protocol_version,
                reference_gas_price := event.reference_gas_price,
                total_stake := event.total_stake,
                storage_fund_reinvestment := event.storage_fund_reinvestment,
                storage_charge := event.storage_charge,
                storage_rebate := event.storage_rebate,
                leftover_storage_fund_inflow := event.leftover_storage_fund_inflow,
                stake_subsidy_amount := event.stake_subsidy_amount,
                storage_fund_balance := event.storage_fund_balance,
                total_gas_fees := event.total_gas_fees,
                total_stake_rewards_distributed := event.total_stake_rewards_distributed }
            .ok (some
              { last_epoch := some
                  { epoch := system_state.epoch - 1,
                    end_of_epoch_info := last_end_of_epoch_info,
                    end_of_epoch_data := eod,
                    epoch_total_transactions :=
                      data.checkpoint_summary.network_total_transactions -
                        network_tx_count_prev_epoch },
                new_epoch :=
                  { epoch := system_state.epoch,
                    validators,
                    first_checkpoint_id := data.checkpoint_summary.sequence_number + 1,
                    epoch_start_timestamp := system_state.epoch_start_timestamp_ms,
                    protocol_version := system_state.protocol_version,
                    reference_gas_price := system_state.reference_gas_price,
                    end_of_epoch_info := none,
                    end_of_epoch_data := none,
                    epoch_total_transactions := 0 } })

/-- A row of the `checkpoints` table as
`get_network_total_transactions_previous_epoch` reads it. -/
structure StoredCheckpoint where
  sequence_number : Nat
  epoch : Nat
  network_total_transactions : Nat
deriving DecidableEq

/-- `PgIndexerStoreV2::get_network_total_transactions_previous_epoch`
(pg_indexer_store_v2.rs lines 369-382): select
`max(network_total_transactions)` over the checkpoints whose `epoch` column
equals `epoch as i64 - 1`, with a `NULL` (empty) result unwrapped to `0`.
The signed subtraction is kept in `Int`. -/
def pg_get_network_total_transactions_previous_epoch
    (rows : List StoredCheckpoint) (epoch : Nat) : Nat :=
  (((rows.filter (fun c => (c.epoch : Int) == (epoch : Int) - 1)).map
      (fun c => c.network_total_transactions)).max?).getD 0

/-! ## The commit task (`start_tx_checkpoint_commit_task`) -/

/-- The six `Store` write entry points the commit task issues. -/
inductive PersistKind where
  | transactions
  | tx_indices
  | events
  | object_changes
  | packages
  | checkpoints
deriving DecidableEq

/-- One `Store` write call of a commit iteration, with its payload. -/
inductive PersistCall where
  | transactions (txs : List IndexedTransaction)
  | tx_indices (indices : List TxIndex)
  | events (evs : List IndexedEvent)
  | object_changes (oc : List TransactionObjectChangesV2)
  | packages (pkgs : List IndexedPackage)
  | checkpoints (cps : List IndexedCheckpoint)
deriving DecidableEq

/-- One iteration of the `while let` loop of `start_tx_checkpoint_commit_task`
(checkpoint_handler_v2.rs lines 655-760), as the ordered trace of `Store`
write calls it issues. With `skip_db_commit` the batch is discarded. The
five data writes are issued by one `join_all` (concurrent, here recorded in
the order of the `vec!`); their results are collected into a `Result` whose
`expect` panics — so `persist_checkpoints` is issued only when
`success` holds for all five, and always after them. -/
def commit_iteration (skip_db_commit : Bool) (success : PersistKind → Bool)
    (batch : List TemporaryCheckpointStoreV2) : List PersistCall :=
  if skip_db_commit then []
  else
    let checkpoint_batch := batch.map (fun c => c.checkpoint)
    let tx_batch := (batch.map (fun c => c.transactions)).flatten
    let tx_indices_batch := (batch.map (fun c => c.tx_indices)).flatten
    let events_batch := (batch.map (fun c => c.events)).flatten
    let object_changes_batch := batch.map (fun c => c.object_changes)
    let packages_batch := (batch.map (fun c => c.packages)).flatten
    let fanout : List PersistCall :=
      [.transactions tx_batch, .tx_indices tx_indices_batch, .events events_batch,
        .object_changes object_changes_batch, .packages packages_batch]
    if success .transactions && success .tx_indices && success .events &&
        success .object_changes && success .packages then
      fanout ++ [.checkpoints checkpoint_batch]
    else fanout

/-! ## `get_objects_to_commit` and `persist_object_changes` -/

/-- Lookup in the association-list model of the `HashMap` of
`get_objects_to_commit`. -/
def assocFind (m : List (ObjectID × IndexedObject)) (k : ObjectID) : Option IndexedObject :=
  (m.find? (fun p => p.1 == k)).map Prod.snd

/-- In-place replacement of the entry at key `k`. -/
def assocReplace (m : List (ObjectID × IndexedObject)) (k : ObjectID) (io : IndexedObject) :
    List (ObjectID × IndexedObject) :=
  m.map (fun p => if p.1 = k then (p.1, io) else p)

/-- One `for` step of `get_objects_to_commit` (pg_indexer_store_v2.rs lines
717-728): vacant entries are filled, occupied entries replaced only when the
incoming `object_version` is strictly greater. -/
def commitEntryStep (m : List (ObjectID × IndexedObject)) (object : IndexedObject) :
    List (ObjectID × IndexedObject) :=
  match assocFind m object.object_id with
  | none => m ++ [(object.object_id, object)]
  | some e =>
    if e.object_version < object.object_version then assocReplace m object.object_id object
    else m

/-- `get_objects_to_commit` (pg_indexer_store_v2.rs lines 705-730): the
per-id latest mutated `IndexedObject`s (the `HashMap`, modelled as a
key-unique association list in insertion order; the source extracts
`into_values()`) and the deleted object ids (the `HashSet`, modelled as a
list read by membership). -/
def get_objects_to_commit (tx_object_changes : List TransactionObjectChangesV2) :
    List (ObjectID × IndexedObject) × List ObjectID :=
  let deleted_changes :=
    (tx_object_changes.flatMap (fun c => c.deleted_objects)).map (fun o => o.id)
  let latest_objects :=
    (tx_object_changes.flatMap (fun c => c.changed_objects)).foldl commitEntryStep []
  (latest_objects, deleted_changes)

/-- `PG_COMMIT_CHUNK_SIZE`. -/
def PG_COMMIT_CHUNK_SIZE : Nat := 1000

/-- `Vec::chunks(n)` for `n > 0`: consecutive chunks of at most `n`
elements, none empty. -/
def chunksOf (n : Nat) : List IndexedObject → List (List IndexedObject)
  | [] => []
  | a :: l => (a :: l).take n :: chunksOf n (l.drop (n - 1))
termination_by l => l.length
decreasing_by simp only [List.length_drop, List.length_cons]; omega

/-- One SQL statement of `persist_object_changes`'s transaction. -/
inductive ObjectsTableOp where
  | upsert (rows : List IndexedObject)
  | deleteIds (ids : List ObjectID)
deriving DecidableEq

/-- Whether an op is a mutation upsert. -/
def ObjectsTableOp.isUpsert : ObjectsTableOp → Bool
  | .upsert _ => true
  | .deleteIds _ => false

/-- `PgIndexerStoreV2::persist_object_changes` (pg_indexer_store_v2.rs lines
220-298), as the ordered list of SQL statements issued inside its single
`transactional_blocking_with_retry!` block: chunked
`insert … on conflict do update` upserts of the mutated rows, then one
`delete where object_id in (…)` of the deleted ids. (The `StoredObject`
column conversion is external and omitted.) -/
def persist_object_changes (tx_object_changes : List TransactionObjectChangesV2) :
    List ObjectsTableOp :=
  let committed := get_objects_to_commit tx_object_changes
  let mutated_objects := committed.1.map Prod.snd
  ((chunksOf PG_COMMIT_CHUNK_SIZE mutated_objects).map ObjectsTableOp.upsert) ++
    [ObjectsTableOp.deleteIds committed.2]

/-! ## Concrete inputs (used to instantiate the claim theorems) -/

/-- A Move object `A` at id 1, version 5. -/
def exObject : Object :=
  { id := 1, version := 5, digest := 55, data := ObjectData.moveObject 0 }

/-- The changed-object ref matching `exObject`. -/
def exChangedRef : ObjectRef :=
  { id := 1, version := 5, digest := 55 }

/-- A deleted-object ref at id 2, version 3. -/
def exDeletedRef : ObjectRef :=
  { id := 2, version := 3, digest := 0 }

/-- Effects that mutate `exObject` to an address owner and delete
`exDeletedRef`. -/
def exEffects : TransactionEffects :=
  { all_changed_objects := [(exChangedRef, Owner.addressOwner 7, WriteKind.mutate)],
    deleted := [exDeletedRef],
    wrapped := [],
    unwrapped_then_deleted := [] }

/-- A transaction envelope. -/
def exTransaction : Transaction :=
  { digest := 10,
    transaction_data := { sender := 9, input_objects := [], move_calls := [] } }

/-- A checkpoint with one transaction, carrying `exObject`. -/
def exCheckpointData : CheckpointData :=
  { transactions := [(exTransaction, exEffects, none)],
    checkpoint_summary :=
      { sequence_number := 12, epoch := 1, timestamp_ms := 1000,
        network_total_transactions := 42, end_of_epoch_data := none },
    checkpoint_contents := 0,
    objects := [exObject] }

/-- A dynamic-field deriver that finds nothing. -/
def exTryDF : TryDF := fun _ _ => .ok none

/-- A cache holding exactly `exObject`. -/
def exCache : InMemObjectCache :=
  InMemObjectCache.new.insert_object exObject

/-- A store read that always misses. -/
def exStoreGetObject : ObjectID → Option Nat → Except IndexerError (Option Object) :=
  fun _ _ => .ok none

/-- A remote RPC that always fails. -/
def exRpc : ObjectID → Nat → Except IndexerError Object :=
  fun _ _ => .error (.fullNodeReading 0)

/-- A checkpoint header row. -/
def exIndexedCheckpoint : IndexedCheckpoint :=
  { sequence_number := 12, epoch := 1, timestamp_ms := 1000, network_total_transactions := 42 }

/-- A transaction row. -/
def exIndexedTransaction : IndexedTransaction :=
  { tx_sequence_number := 0, tx_digest := 10,
    checkpoint_sequence_number := 12, timestamp_ms := 1000 }

/-- A per-checkpoint batch for the commit task. -/
def exBatchEntry : TemporaryCheckpointStoreV2 :=
  { checkpoint := exIndexedCheckpoint,
    transactions := [exIndexedTransaction],
    events := [],
    tx_indices := [],
    object_changes := { changed_objects := [], deleted_objects := [] },
    packages := [] }

/-- The system-state summary after an epoch change to epoch 5. -/
def exSystemState : SuiSystemStateSummary :=
  { epoch := 5, epoch_start_timestamp_ms := 2000, active_validators := [1, 2],
    reference_gas_price := 100, protocol_version := 3 }

/-- A `SystemEpochInfoEvent` payload. -/
def exEpochEvent : Event :=
  { is_system_epoch_info_event := true,
    contents :=
      { protocol_version := 3, reference_gas_price := 100, total_stake := 0,
        storage_fund_reinvestment := 0, storage_charge := 0, storage_rebate := 0,
        leftover_storage_fund_inflow := 0, stake_subsidy_amount := 0,
        storage_fund_balance := 0, total_gas_fees := 0,
        total_stake_rewards_distributed := 0 } }

/-- The last checkpoint of epoch 4 (`network_total_transactions = 1000`),
carrying an end-of-epoch marker and the epoch event. -/
def exEpochCheckpointData : CheckpointData :=
  { transactions := [(exTransaction, exEffects, some { data := [exEpochEvent] })],
    checkpoint_summary :=
      { sequence_number := 40, epoch := 4, timestamp_ms := 3000,
        network_total_transactions := 1000, end_of_epoch_data := some 9 },
    checkpoint_contents := 0,
    objects := [] }

/-- Stored checkpoint rows: the last checkpoint of epoch 3 had
`network_total_transactions = 700`. -/
def exStoredCheckpoints : List StoredCheckpoint :=
  [{ sequence_number := 30, epoch := 3, network_total_transactions := 700 }]

/-- A system-state reader returning `exSystemState`. -/
def exGetSystemState : List Object → Except IndexerError SuiSystemStateSummary :=
  fun _ => .ok exSystemState

/-! ## Theorems -/

/-- C1: the code violates gap-freeness. Running checkpoints 0 and 1 with one
transaction each (so `network_total_transactions` is 1 after checkpoint 0 and
2 after checkpoint 1), checkpoint 0 is assigned `tx_sequence_number` 0 but
checkpoint 1 is assigned 2 — the in-memory map records
`network_total_transactions + 1 = 2` for checkpoint 1 — so the assigned
numbers are not the contiguous range `[0, Σt) = [0, 1]`: sequence number 1
is never assigned. -/
theorem C1_tx_sequence_gap :
    runCheckpoints (fun _ => none) [1, 1] = some [[0], [2]]
    ∧ [[0], [2]].flatten ≠ List.range (List.sum [1, 1]) := by
  constructor
  · rfl
  · decide

/-- C9: in the `TxIndex` rows built by the per-transaction loop, `senders` is
always exactly the one-element list holding the transaction's
`tx.sender()`. -/
theorem C9_senders_singleton (starting_tx_sequence_number : Nat)
    (transactions : List (Transaction × TransactionEffects × Option TransactionEvents)) :
    (index_tx_indices starting_tx_sequence_number transactions).map (fun ti => ti.senders)
      = transactions.map (fun t => [t.1.transaction_data.sender]) := by
  induction transactions generalizing starting_tx_sequence_number with
  | nil => rfl
  | cons t rest ih =>
    obtain ⟨tx, fx, ev⟩ := t
    simp [index_tx_indices, mkTxIndex, ih]

/-- `ownerAddress` hits exactly on `AddressOwner`. -/
theorem ownerAddress_eq_some (owner : Owner) (a : SuiAddress) :
    ownerAddress owner = some a ↔ owner = Owner.addressOwner a := by
  cases owner <;> simp [ownerAddress]

/-- Membership in `uniqueFirstAux`: an address is kept iff it occurs in the
input and was not already seen. -/
theorem mem_uniqueFirstAux (l : List SuiAddress) :
    ∀ seen a, a ∈ uniqueFirstAux seen l ↔ a ∈ l ∧ a ∉ seen := by
  induction l with
  | nil => simp [uniqueFirstAux]
  | cons b rest ih =>
    intro seen a
    by_cases hb : b ∈ seen
    · rw [uniqueFirstAux, if_pos hb, ih]
      constructor
      · rintro ⟨h1, h2⟩
        exact ⟨List.mem_cons_of_mem _ h1, h2⟩
      · rintro ⟨h1, h2⟩
        rcases List.mem_cons.mp h1 with rfl | h1
        · exact absurd hb h2
        · exact ⟨h1, h2⟩
    · rw [uniqueFirstAux, if_neg hb]
      constructor
      · intro h
        rcases List.mem_cons.mp h with rfl | h
        · exact ⟨List.mem_cons_self _ _, hb⟩
        · obtain ⟨h1, h2⟩ := (ih _ _).mp h
          exact ⟨List.mem_cons_of_mem _ h1, fun hs => h2 (List.mem_cons_of_mem _ hs)⟩
      · rintro ⟨h1, h2⟩
        rcases List.mem_cons.mp h1 with rfl | h1
        · exact List.mem_cons_self _ _
        · by_cases hab : a = b
          · subst hab; exact List.mem_cons_self _ _
          · exact List.mem_cons_of_mem _
              ((ih _ _).mpr ⟨h1, fun hs => (List.mem_cons.mp hs).elim hab h2⟩)

/-- `uniqueFirstAux` never repeats an address. -/
theorem nodup_uniqueFirstAux (l : List SuiAddress) :
    ∀ seen, (uniqueFirstAux seen l).Nodup := by
  induction l with
  | nil => intro seen; simp [uniqueFirstAux]
  | cons b rest ih =>
    intro seen
    by_cases hb : b ∈ seen
    · rw [uniqueFirstAux, if_pos hb]
      exact ih seen
    · rw [uniqueFirstAux, if_neg hb]
      refine List.nodup_cons.mpr ⟨?_, ih (b :: seen)⟩
      intro hmem
      exact ((mem_uniqueFirstAux rest (b :: seen) b).mp hmem).2 (List.mem_cons_self b seen)

/-- The kept addresses appear in order of their first occurrence in the
input: `indexOf` is strictly increasing along the output. -/
theorem pairwise_indexOf_uniqueFirstAux (l : List SuiAddress) :
    ∀ seen, (uniqueFirstAux seen l).Pairwise (fun a b => l.indexOf a < l.indexOf b) := by
  induction l with
  | nil => intro seen; simp [uniqueFirstAux]
  | cons c rest ih =>
    intro seen
    by_cases hc : c ∈ seen
    · rw [uniqueFirstAux, if_pos hc]
      refine List.Pairwise.imp_of_mem ?_ (ih seen)
      intro a b ha hb hlt
      have hac : a ≠ c := fun h =>
        ((mem_uniqueFirstAux rest seen a).mp ha).2 (h ▸ hc)
      have hbc : b ≠ c := fun h =>
        ((mem_uniqueFirstAux rest seen b).mp hb).2 (h ▸ hc)
      rw [List.indexOf_cons_ne _ (Ne.symm hac), List.indexOf_cons_ne _ (Ne.symm hbc)]
      exact Nat.succ_lt_succ hlt
    · rw [uniqueFirstAux, if_neg hc]
      refine List.Pairwise.cons ?_ ?_
      · intro b hb
        have hbc : b ≠ c := fun h =>
          ((mem_uniqueFirstAux rest (c :: seen) b).mp hb).2 (h ▸ List.mem_cons_self c seen)
        rw [List.indexOf_cons_self, List.indexOf_cons_ne _ (Ne.symm hbc)]
        exact Nat.succ_pos _
      · refine List.Pairwise.imp_of_mem ?_ (ih (c :: seen))
        intro a b ha hb hlt
        have hac : a ≠ c := fun h =>
          ((mem_uniqueFirstAux rest (c :: seen) a).mp ha).2 (h ▸ List.mem_cons_self c seen)
        have hbc : b ≠ c := fun h =>
          ((mem_uniqueFirstAux rest (c :: seen) b).mp hb).2 (h ▸ List.mem_cons_self c seen)
        rw [List.indexOf_cons_ne _ (Ne.symm hac), List.indexOf_cons_ne _ (Ne.symm hbc)]
        exact Nat.succ_lt_succ hlt

/-- C8: `TxIndex.recipients` holds exactly the `AddressOwner` owners of the
effects' `all_changed_objects` — owners of other kinds never appear — with
each address at most once (`Nodup`) and in order of first occurrence in that
sequence (`indexOf` into the owner sequence is strictly increasing). -/
theorem C8_recipients_dedup_order (tx_sequence_number : Nat) (tx : Transaction)
    (fx : TransactionEffects) :
    (mkTxIndex tx_sequence_number tx fx).recipients = txRecipients fx
    ∧ (txRecipients fx).Nodup
    ∧ (∀ a, a ∈ txRecipients fx ↔
        ∃ t ∈ fx.all_changed_objects, t.2.1 = Owner.addressOwner a)
    ∧ (txRecipients fx).Pairwise (fun a b =>
        (changedObjectAddressOwners fx).indexOf a < (changedObjectAddressOwners fx).indexOf b) := by
  refine ⟨rfl, nodup_uniqueFirstAux _ [], ?_, pairwise_indexOf_uniqueFirstAux _ []⟩
  intro a
  rw [txRecipients, mem_uniqueFirstAux]
  simp only [List.not_mem_nil, not_false_iff, and_true]
  rw [changedObjectAddressOwners, List.mem_filterMap]
  constructor
  · rintro ⟨t, ht, hsome⟩
    exact ⟨t, ht, (ownerAddress_eq_some _ _).mp hsome⟩
  · rintro ⟨t, ht, howner⟩
    exact ⟨t, ht, (ownerAddress_eq_some _ _).mpr howner⟩

/-- Unfolding `get_latest_objects` over a snoc. -/
theorem get_latest_objects_append (l : List Object) (o : Object) :
    get_latest_objects (l ++ [o]) = latestStep (get_latest_objects l) o := by
  simp [get_latest_objects, List.foldl_append]

/-- `latestStep` on a vacant entry: map update, pointwise. -/
theorem latestStep_fst_vacant (acc : (ObjectID → Option Object) × List (ObjectID × Nat))
    (o : Object) (i : ObjectID) (h : acc.1 o.id = none) :
    (latestStep acc o).1 i = if i = o.id then some o else acc.1 i := by
  simp [latestStep, h]

/-- `latestStep` on a vacant entry: discarded set unchanged. -/
theorem latestStep_snd_vacant (acc : (ObjectID → Option Object) × List (ObjectID × Nat))
    (o : Object) (h : acc.1 o.id = none) :
    (latestStep acc o).2 = acc.2 := by
  simp [latestStep, h]

/-- `latestStep` replacing an occupied entry: map update, pointwise. -/
theorem latestStep_fst_replace (acc : (ObjectID → Option Object) × List (ObjectID × Nat))
    (o e : Object) (i : ObjectID) (h : acc.1 o.id = some e) (hv : e.version < o.version) :
    (latestStep acc o).1 i = if i = o.id then some o else acc.1 i := by
  simp [latestStep, h, hv]

/-- `latestStep` replacing an occupied entry: the superseded pair is pushed. -/
theorem latestStep_snd_replace (acc : (ObjectID → Option Object) × List (ObjectID × Nat))
    (o e : Object) (h : acc.1 o.id = some e) (hv : e.version < o.version) :
    (latestStep acc o).2 = (e.id, e.version) :: acc.2 := by
  simp [latestStep, h, hv]

/-- `latestStep` keeping an occupied entry: nothing changes. -/
theorem latestStep_keep (acc : (ObjectID → Option Object) × List (ObjectID × Nat))
    (o e : Object) (h : acc.1 o.id = some e) (hv : ¬ e.version < o.version) :
    latestStep acc o = acc := by
  simp [latestStep, h, hv]

/-- The unconditional contract of `get_latest_objects`: every map entry is
stored under its own id, comes from the input list, and its version is
maximal among all snapshots of that id; every input id has an entry; and
every discarded pair comes from the input and lies strictly below its id's
retained version. -/
theorem get_latest_objects_spec (objects : List Object) :
    (∀ i o, (get_latest_objects objects).1 i = some o →
        o.id = i ∧ o ∈ objects ∧ ∀ o2 ∈ objects, o2.id = i → o2.version ≤ o.version)
    ∧ (∀ o ∈ objects, ∃ e, (get_latest_objects objects).1 o.id = some e)
    ∧ (∀ p ∈ (get_latest_objects objects).2, ∃ o, o ∈ objects ∧ o.id = p.1 ∧ o.version = p.2
        ∧ ∃ e, (get_latest_objects objects).1 p.1 = some e ∧ p.2 < e.version) := by
  induction objects using List.reverseRecOn with
  | nil =>
    refine ⟨?_, ?_, ?_⟩ <;> simp [get_latest_objects]
  | append_singleton l o ih =>
    obtain ⟨ih1, ih2, ih3⟩ := ih
    rcases h : (get_latest_objects l).1 o.id with _ | e
    · -- vacant entry: insert, discarded unchanged
      refine ⟨?_, ?_, ?_⟩
      · intro i ob hob
        rw [get_latest_objects_append, latestStep_fst_vacant _ _ _ h] at hob
        by_cases hi : i = o.id
        · rw [if_pos hi] at hob
          obtain rfl : o = ob := Option.some.inj hob
          subst hi
          refine ⟨rfl, List.mem_append_right _ (List.mem_singleton_self o), ?_⟩
          intro o2 ho2 hid
          rcases List.mem_append.mp ho2 with ho2 | ho2
          · obtain ⟨e2, he2⟩ := ih2 o2 ho2
            rw [hid, h] at he2
            cases he2
          · rw [List.mem_singleton.mp ho2]
        · rw [if_neg hi] at hob
          obtain ⟨hid, hmem, hmax⟩ := ih1 i ob hob
          refine ⟨hid, List.mem_append_left _ hmem, ?_⟩
          intro o2 ho2 hid2
          rcases List.mem_append.mp ho2 with ho2 | ho2
          · exact hmax o2 ho2 hid2
          · rw [List.mem_singleton.mp ho2] at hid2
            exact absurd hid2.symm hi
      · intro ob hob
        rw [get_latest_objects_append]
        rcases List.mem_append.mp hob with hob | hob
        · obtain ⟨e2, he2⟩ := ih2 ob hob
          by_cases hi : ob.id = o.id
          · exact ⟨o, by rw [latestStep_fst_vacant _ _ _ h, if_pos hi]⟩
          · exact ⟨e2, by rw [latestStep_fst_vacant _ _ _ h, if_neg hi]; exact he2⟩
        · rw [List.mem_singleton.mp hob]
          exact ⟨o, by rw [latestStep_fst_vacant _ _ _ h, if_pos rfl]⟩
      · intro p hp
        rw [get_latest_objects_append, latestStep_snd_vacant _ _ h] at hp
        obtain ⟨o2, ho2, hid, hv2, e2, he2, hlt⟩ := ih3 p hp
        have hne : p.1 ≠ o.id := by
          intro hq
          rw [hq, h] at he2
          cases he2
        refine ⟨o2, List.mem_append_left _ ho2, hid, hv2, e2, ?_, hlt⟩
        rw [get_latest_objects_append, latestStep_fst_vacant _ _ _ h, if_neg hne]
        exact he2
    · -- occupied entry
      obtain ⟨heid, hemem, hemax⟩ := ih1 o.id e h
      by_cases hv : e.version < o.version
      · -- replace, push superseded pair
        refine ⟨?_, ?_, ?_⟩
        · intro i ob hob
          rw [get_latest_objects_append, latestStep_fst_replace _ _ _ _ h hv] at hob
          by_cases hi : i = o.id
          · rw [if_pos hi] at hob
            obtain rfl : o = ob := Option.some.inj hob
            subst hi
            refine ⟨rfl, List.mem_append_right _ (List.mem_singleton_self o), ?_⟩
            intro o2 ho2 hid
            rcases List.mem_append.mp ho2 with ho2 | ho2
            · exact Nat.le_trans (hemax o2 ho2 hid) (Nat.le_of_lt hv)
            · rw [List.mem_singleton.mp ho2]
          · rw [if_neg hi] at hob
            obtain ⟨hid, hmem, hmax⟩ := ih1 i ob hob
            refine ⟨hid, List.mem_append_left _ hmem, ?_⟩
            intro o2 ho2 hid2
            rcases List.mem_append.mp ho2 with ho2 | ho2
            · exact hmax o2 ho2 hid2
            · rw [List.mem_singleton.mp ho2] at hid2
              exact absurd hid2.symm hi
        · intro ob hob
          rw [get_latest_objects_append]
          rcases List.mem_append.mp hob with hob | hob
          · obtain ⟨e2, he2⟩ := ih2 ob hob
            by_cases hi : ob.id = o.id
            · exact ⟨o, by rw [latestStep_fst_replace _ _ _ _ h hv, if_pos hi]⟩
            · exact ⟨e2, by rw [latestStep_fst_replace _ _ _ _ h hv, if_neg hi]; exact he2⟩
          · rw [List.mem_singleton.mp hob]
            exact ⟨o, by rw [latestStep_fst_replace _ _ _ _ h hv, if_pos rfl]⟩
        · intro p hp
          rw [get_latest_objects_append, latestStep_snd_replace _ _ _ h hv] at hp
          rcases List.mem_cons.mp hp with rfl | hp
          · refine ⟨e, List.mem_append_left _ hemem, rfl, rfl, o, ?_, hv⟩
            rw [get_latest_objects_append, latestStep_fst_replace _ _ _ _ h hv, heid,
              if_pos rfl]
          · obtain ⟨o2, ho2, hid, hv2, e2, he2, hlt⟩ := ih3 p hp
            by_cases hi : p.1 = o.id
            · rw [hi, h] at he2
              obtain rfl : e = e2 := Option.some.inj he2
              refine ⟨o2, List.mem_append_left _ ho2, hid, hv2, o, ?_, Nat.lt_trans hlt hv⟩
              rw [get_latest_objects_append, latestStep_fst_replace _ _ _ _ h hv, if_pos hi]
            · refine ⟨o2, List.mem_append_left _ ho2, hid, hv2, e2, ?_, hlt⟩
              rw [get_latest_objects_append, latestStep_fst_replace _ _ _ _ h hv, if_neg hi]
              exact he2
      · -- keep: nothing changes
        rw [get_latest_objects_append, latestStep_keep _ _ _ h hv]
        refine ⟨?_, ?_, ?_⟩
        · intro i ob hob
          obtain ⟨hid, hmem, hmax⟩ := ih1 i ob hob
          refine ⟨hid, List.mem_append_left _ hmem, ?_⟩
          intro o2 ho2 hid2
          rcases List.mem_append.mp ho2 with ho2 | ho2
          · exact hmax o2 ho2 hid2
          · rw [List.mem_singleton.mp ho2] at hid2 ⊢
            have hoe : ob = e := by
              rw [← hid2, h] at hob
              exact (Option.some.inj hob).symm
            rw [hoe]
            exact Nat.le_of_not_lt hv
        · intro ob hob
          rcases List.mem_append.mp hob with hob | hob
          · exact ih2 ob hob
          · rw [List.mem_singleton.mp hob]
            exact ⟨e, h⟩
        · intro p hp
          obtain ⟨o2, ho2, hid, hv2, e2, he2, hlt⟩ := ih3 p hp
          exact ⟨o2, List.mem_append_left _ ho2, hid, hv2, e2, he2, hlt⟩

/-- When each id's snapshots appear in strictly increasing version order,
`discarded_versions` is exactly the set of `(id, version)` pairs present in
the input whose version lies strictly below the retained maximum. -/
theorem get_latest_objects_discarded_of_sorted (objects : List Object)
    (hs : objects.Pairwise (fun a b => a.id = b.id → a.version < b.version)) :
    ∀ i v, (i, v) ∈ (get_latest_objects objects).2 ↔
      ∃ o, o ∈ objects ∧ o.id = i ∧ o.version = v ∧
        ∃ e, (get_latest_objects objects).1 i = some e ∧ v < e.version := by
  induction objects using List.reverseRecOn with
  | nil => intro i v; simp [get_latest_objects]
  | append_singleton l o ih =>
    rw [List.pairwise_append] at hs
    obtain ⟨hsl, -, hcross0⟩ := hs
    have hcross : ∀ a ∈ l, a.id = o.id → a.version < o.version := fun a ha =>
      hcross0 a ha o (List.mem_singleton_self o)
    have ihs := ih hsl
    obtain ⟨sp1, sp2, -⟩ := get_latest_objects_spec l
    intro i v
    rcases h : (get_latest_objects l).1 o.id with _ | e
    · -- vacant: no snapshot of o.id occurs in l
      have hnol : ∀ a ∈ l, a.id ≠ o.id := by
        intro a ha hq
        obtain ⟨e2, he2⟩ := sp2 a ha
        rw [hq, h] at he2
        cases he2
      rw [get_latest_objects_append, latestStep_snd_vacant _ _ h]
      by_cases hi : i = o.id
      · constructor
        · intro hp
          obtain ⟨o2, ho2, hid, -, -⟩ := (ihs i v).mp hp
          rw [hi] at hid
          exact absurd hid (hnol o2 ho2)
        · rintro ⟨o2, ho2, hid, hv2, e2, he2, hlt⟩
          rw [latestStep_fst_vacant _ _ _ h, if_pos hi] at he2
          obtain rfl : o = e2 := Option.some.inj he2
          rcases List.mem_append.mp ho2 with ho2 | ho2
          · rw [hi] at hid
            exact absurd hid (hnol o2 ho2)
          · rw [List.mem_singleton.mp ho2] at hv2
            rw [← hv2] at hlt
            exact absurd hlt (Nat.lt_irrefl _)
      · have hent : (latestStep (get_latest_objects l) o).1 i = (get_latest_objects l).1 i := by
          rw [latestStep_fst_vacant _ _ _ h, if_neg hi]
        rw [hent, ihs i v]
        constructor
        · rintro ⟨o2, ho2, hid, hv2, rest⟩
          exact ⟨o2, List.mem_append_left _ ho2, hid, hv2, rest⟩
        · rintro ⟨o2, ho2, hid, hv2, rest⟩
          rcases List.mem_append.mp ho2 with ho2 | ho2
          · exact ⟨o2, ho2, hid, hv2, rest⟩
          · rw [List.mem_singleton.mp ho2] at hid
            exact absurd hid.symm hi
    · -- occupied: sortedness forces the strict replacement
      obtain ⟨heid, hemem, hemax⟩ := sp1 o.id e h
      have hv : e.version < o.version := hcross e hemem heid
      rw [get_latest_objects_append, latestStep_snd_replace _ _ _ h hv]
      by_cases hi : i = o.id
      · have hentry : (latestStep (get_latest_objects l) o).1 i = some o := by
          rw [latestStep_fst_replace _ _ _ _ h hv, if_pos hi]
        constructor
        · intro hp
          rcases List.mem_cons.mp hp with hq | hp
          · injection hq with hid hvv
            refine ⟨e, List.mem_append_left _ hemem, ?_, hvv.symm, o, hentry, ?_⟩
            · rw [hid]
            · rw [hvv]
              exact hv
          · obtain ⟨o2, ho2, hid, hv2, e2, he2, hlt⟩ := (ihs i v).mp hp
            rw [hi, h] at he2
            obtain rfl : e = e2 := Option.some.inj he2
            exact ⟨o2, List.mem_append_left _ ho2, hid, hv2, o, hentry, Nat.lt_trans hlt hv⟩
        · rintro ⟨o2, ho2, hid, hv2, e2, he2, hlt⟩
          rw [hentry] at he2
          obtain rfl : o = e2 := Option.some.inj he2
          rcases List.mem_append.mp ho2 with ho2 | ho2
          · by_cases hev : v = e.version
            · refine List.mem_cons.mpr (Or.inl ?_)
              rw [hi, hev, heid]
            · refine List.mem_cons.mpr (Or.inr ((ihs i v).mpr
                ⟨o2, ho2, hid, hv2, e, ?_, ?_⟩))
              · rw [hi]
                exact h
              · have hle : v ≤ e.version := by
                  rw [← hv2]
                  exact hemax o2 ho2 (hid.trans hi)
                exact Nat.lt_of_le_of_ne hle hev
          · rw [List.mem_singleton.mp ho2] at hv2
            rw [← hv2] at hlt
            exact absurd hlt (Nat.lt_irrefl _)
      · have hent : (latestStep (get_latest_objects l) o).1 i = (get_latest_objects l).1 i := by
          rw [latestStep_fst_replace _ _ _ _ h hv, if_neg hi]
        have hne : ((i : ObjectID), v) ≠ (e.id, e.version) := by
          intro hq
          injection hq with hid hvv
          exact hi (hid.trans heid)
        rw [hent, List.mem_cons, ihs i v]
        constructor
        · rintro (hq | hrhs)
          · exact absurd hq hne
          · obtain ⟨o2, ho2, hid, hv2, rest⟩ := hrhs
            exact ⟨o2, List.mem_append_left _ ho2, hid, hv2, rest⟩
        · rintro ⟨o2, ho2, hid, hv2, rest⟩
          rcases List.mem_append.mp ho2 with ho2 | ho2
          · exact Or.inr ⟨o2, ho2, hid, hv2, rest⟩
          · rw [List.mem_singleton.mp ho2] at hid
            exact absurd hid.symm hi

/-- Shape of every row emitted by the changed-object traversal: provided the
`latest` map stores entries under their own id, each emitted row carries the
checkpoint sequence, is exactly the `latest` entry of its id, got its
`df_info` from `tryDF`, and its `(id, version)` pair passed the
`discarded ∪ deleted` filter. -/
theorem processChangedRefs_spec (tryDF : TryDF) (checkpoint_seq : Nat)
    (latest : ObjectID → Option Object) (discarded deleted_ids : List (ObjectID × Nat))
    (hlat : ∀ i ob, latest i = some ob → ob.id = i)
    (refs : List (ObjectRef × Owner × WriteKind)) (out : List IndexedObject)
    (h : processChangedRefs tryDF checkpoint_seq latest discarded deleted_ids refs = .ok out) :
    ∀ io ∈ out, io.checkpoint_sequence_number = checkpoint_seq
      ∧ latest io.object.id = some io.object
      ∧ tryDF io.object latest = .ok io.df_info
      ∧ (io.object.id, io.object.version) ∉ discarded
      ∧ (io.object.id, io.object.version) ∉ deleted_ids := by
  induction refs generalizing out with
  | nil =>
    rw [processChangedRefs] at h
    obtain rfl : ([] : List IndexedObject) = out := Except.ok.inj h
    intro io hio
    cases hio
  | cons t rest ih =>
    rw [processChangedRefs] at h
    by_cases hskip : (t.1.id, t.1.version) ∈ discarded ∨ (t.1.id, t.1.version) ∈ deleted_ids
    · rw [if_pos hskip] at h
      exact ih out h
    · rw [if_neg hskip] at h
      rcases hl : latest t.1.id with _ | object
      · rw [hl] at h
        cases h
      · rw [hl] at h
        dsimp only at h
        by_cases hver : t.1.version = object.version
        · rw [if_pos hver] at h
          rcases hdf : tryDF object latest with e | df_info
          · rw [hdf] at h
            cases h
          · rw [hdf] at h
            rcases hrest : processChangedRefs tryDF checkpoint_seq latest discarded
                deleted_ids rest with e | tail
            · rw [hrest] at h
              cases h
            · rw [hrest] at h
              obtain rfl := Except.ok.inj h
              intro io hio
              rcases List.mem_cons.mp hio with rfl | hio
              · have hid : object.id = t.1.id := hlat _ _ hl
                refine ⟨rfl, ?_, ?_, ?_, ?_⟩
                · show latest object.id = some object
                  rw [hid]
                  exact hl
                · exact hdf
                · show (object.id, object.version) ∉ discarded
                  rw [hid, ← hver]
                  exact fun hc => hskip (Or.inl hc)
                · show (object.id, object.version) ∉ deleted_ids
                  rw [hid, ← hver]
                  exact fun hc => hskip (Or.inr hc)
              · exact ih tail hrest io hio
        · rw [if_neg hver] at h
          cases h

/-- The per-transaction flat-map inherits the same row shape. -/
theorem processTxsChangedObjects_spec (tryDF : TryDF) (checkpoint_seq : Nat)
    (latest : ObjectID → Option Object) (discarded deleted_ids : List (ObjectID × Nat))
    (hlat : ∀ i ob, latest i = some ob → ob.id = i)
    (transactions : List (Transaction × TransactionEffects × Option TransactionEvents))
    (out : List IndexedObject)
    (h : processTxsChangedObjects tryDF checkpoint_seq latest discarded deleted_ids
        transactions = .ok out) :
    ∀ io ∈ out, io.checkpoint_sequence_number = checkpoint_seq
      ∧ latest io.object.id = some io.object
      ∧ tryDF io.object latest = .ok io.df_info
      ∧ (io.object.id, io.object.version) ∉ discarded
      ∧ (io.object.id, io.object.version) ∉ deleted_ids := by
  induction transactions generalizing out with
  | nil =>
    rw [processTxsChangedObjects] at h
    obtain rfl : ([] : List IndexedObject) = out := Except.ok.inj h
    intro io hio
    cases hio
  | cons t rest ih =>
    obtain ⟨tx, fx, ev⟩ := t
    rw [processTxsChangedObjects] at h
    rcases hhead : processChangedRefs tryDF checkpoint_seq latest discarded deleted_ids
        fx.all_changed_objects with e | head
    · rw [hhead] at h
      cases h
    · rw [hhead] at h
      rcases htail : processTxsChangedObjects tryDF checkpoint_seq latest discarded
          deleted_ids rest with e | tail
      · rw [htail] at h
        cases h
      · rw [htail] at h
        obtain rfl := Except.ok.inj h
        intro io hio
        rcases List.mem_append.mp hio with hio | hio
        · exact processChangedRefs_spec tryDF checkpoint_seq latest discarded deleted_ids
            hlat fx.all_changed_objects head hhead io hio
        · exact ih tail htail io hio

/-- C2 is false as stated: in the object list `[A@v5, A@v4]` (one id, higher
version first), version 4 of id 1 is strictly below the retained maximum 5,
yet `discarded_versions` is empty — the fold only discards an entry it
replaces, and `A@v4` never replaces `A@v5`. -/
theorem C2_counterexample_discarded_misses_low_version :
    (get_latest_objects
        [{ id := 1, version := 5, digest := 0, data := ObjectData.moveObject 0 },
          { id := 1, version := 4, digest := 0, data := ObjectData.moveObject 0 }]).1 1
      = some { id := 1, version := 5, digest := 0, data := ObjectData.moveObject 0 }
    ∧ ((1 : ObjectID), (4 : Nat)) ∉ (get_latest_objects
        [{ id := 1, version := 5, digest := 0, data := ObjectData.moveObject 0 },
          { id := 1, version := 4, digest := 0, data := ObjectData.moveObject 0 }]).2 := by
  constructor
  · rfl
  · decide

/-- C2, amended: `latest_objects` always retains, per id, a snapshot of
maximal version from the list; `discarded_versions` always holds only
`(id, version)` pairs present in the list and strictly below the retained
maximum; and it holds exactly those pairs provided each id's snapshots
appear in strictly increasing version order. Consequently the emitted
mutation set of `index_checkpoint` has at most one row per object id — any
two emitted rows with the same id are the same row, the `latest_objects`
entry of that id. -/
theorem C2_latest_objects_amended (objects : List Object) :
    (∀ i o, (get_latest_objects objects).1 i = some o →
        o.id = i ∧ o ∈ objects ∧ ∀ o2 ∈ objects, o2.id = i → o2.version ≤ o.version)
    ∧ (∀ p ∈ (get_latest_objects objects).2, ∃ o, o ∈ objects ∧ o.id = p.1 ∧ o.version = p.2
        ∧ ∃ e, (get_latest_objects objects).1 p.1 = some e ∧ p.2 < e.version)
    ∧ (objects.Pairwise (fun a b => a.id = b.id → a.version < b.version) →
        ∀ i v, (i, v) ∈ (get_latest_objects objects).2 ↔
          ∃ o, o ∈ objects ∧ o.id = i ∧ o.version = v ∧
            ∃ e, (get_latest_objects objects).1 i = some e ∧ v < e.version)
    ∧ (∀ tryDF data res, index_checkpoint tryDF data = .ok res →
        ∀ a ∈ res.1.changed_objects, ∀ b ∈ res.1.changed_objects,
          a.object.id = b.object.id → a = b) := by
  refine ⟨(get_latest_objects_spec objects).1, (get_latest_objects_spec objects).2.2,
    get_latest_objects_discarded_of_sorted objects, ?_⟩
  intro tryDF data res h a ha b hb hab
  simp only [index_checkpoint] at h
  rcases hp : processTxsChangedObjects tryDF data.checkpoint_summary.sequence_number
      (get_latest_objects data.objects).1 (get_latest_objects data.objects).2
      ((data.transactions.flatMap (fun t => get_deleted_objects t.2.1)).map
        (fun o => (o.id, o.version)))
      data.transactions with e | changed
  · rw [hp] at h
    cases h
  · rw [hp] at h
    obtain rfl := Except.ok.inj h
    have hlat : ∀ i ob, (get_latest_objects data.objects).1 i = some ob → ob.id = i :=
      fun i ob hob => ((get_latest_objects_spec data.objects).1 i ob hob).1
    have hsa := processTxsChangedObjects_spec _ _ _ _ _ hlat _ _ hp a ha
    have hsb := processTxsChangedObjects_spec _ _ _ _ _ hlat _ _ hp b hb
    obtain ⟨acs, aob, adf⟩ := a
    obtain ⟨bcs, bob, bdf⟩ := b
    dsimp only at hsa hsb hab ⊢
    obtain ⟨hacs, halat, hadf, -, -⟩ := hsa
    obtain ⟨hbcs, hblat, hbdf, -, -⟩ := hsb
    rw [hab] at halat
    rw [halat] at hblat
    obtain rfl : aob = bob := Option.some.inj hblat
    rw [hadf] at hbdf
    obtain rfl : adf = bdf := Except.ok.inj hbdf
    rw [hacs, hbcs]

/-- C3: deletion dominance. Whenever `index_checkpoint` succeeds, no emitted
mutation row carries the `(id, version)` of any ref in the union of the
effects' `deleted`, `wrapped` and `unwrapped_then_deleted` sets of any
transaction of the checkpoint. -/
theorem C3_deletion_dominance (tryDF : TryDF) (data : CheckpointData)
    (res : TransactionObjectChangesV2 × List IndexedPackage)
    (h : index_checkpoint tryDF data = .ok res)
    (r : ObjectRef)
    (hr : r ∈ data.transactions.flatMap (fun t => get_deleted_objects t.2.1)) :
    res.1.changed_objects.all
      (fun io => !(io.object.id == r.id && io.object.version == r.version)) = true := by
  simp only [index_checkpoint] at h
  rcases hp : processTxsChangedObjects tryDF data.checkpoint_summary.sequence_number
      (get_latest_objects data.objects).1 (get_latest_objects data.objects).2
      ((data.transactions.flatMap (fun t => get_deleted_objects t.2.1)).map
        (fun o => (o.id, o.version)))
      data.transactions with e | changed
  · rw [hp] at h
    cases h
  · rw [hp] at h
    obtain rfl := Except.ok.inj h
    rw [List.all_eq_true]
    intro io hio
    have hlat : ∀ i ob, (get_latest_objects data.objects).1 i = some ob → ob.id = i :=
      fun i ob hob => ((get_latest_objects_spec data.objects).1 i ob hob).1
    have hspec := processTxsChangedObjects_spec _ _ _ _ _ hlat _ _ hp io hio
    have hnot := hspec.2.2.2.2
    simp only [Bool.not_eq_true', Bool.and_eq_false_iff, beq_eq_false_iff_ne, ne_eq]
    by_cases hid : io.object.id = r.id
    · refine Or.inr ?_
      intro hver
      apply hnot
      rw [hid, hver]
      exact List.mem_map_of_mem _ hr
    · exact Or.inl hid

/-- C3, instantiated: on the concrete checkpoint `exCheckpointData` — one
transaction mutating `exObject` and deleting `exDeletedRef` — the emitted
mutation row does not carry the deleted `(id, version)`. -/
theorem C3_deletion_dominance_witness :
    ([IndexedObject.from_object 12 exObject none].all
      (fun io => !(io.object.id == exDeletedRef.id
        && io.object.version == exDeletedRef.version))) = true :=
  C3_deletion_dominance exTryDF exCheckpointData
    ({ changed_objects := [IndexedObject.from_object 12 exObject none],
        deleted_objects := [exDeletedRef] }, [])
    rfl exDeletedRef (by decide)

/-- C5: the exact-version lookup is a strict three-tier chain. A cache hit
returns immediately with only the cache consulted; on a cache miss the store
is consulted, its errors propagate and its hit returns without the RPC; only
when cache and store both miss is the remote RPC issued, and its outcome
(object or error) is the result — in particular the lookup errors when all
three tiers fail. -/
theorem C5_get_object_tiers (object_cache : InMemObjectCache)
    (state_get_object : ObjectID → Option Nat → Except IndexerError (Option Object))
    (try_get_parsed_past_object : ObjectID → Nat → Except IndexerError Object)
    (id version : Nat) :
    (∀ o, object_cache.get id (some version) = some o →
        tx_get_object object_cache state_get_object try_get_parsed_past_object id version
          = (.ok o, [.cache]))
    ∧ (∀ o, object_cache.get id (some version) = none →
        state_get_object id (some version) = .ok (some o) →
        tx_get_object object_cache state_get_object try_get_parsed_past_object id version
          = (.ok o, [.cache, .store]))
    ∧ (∀ e, object_cache.get id (some version) = none →
        state_get_object id (some version) = .error e →
        tx_get_object object_cache state_get_object try_get_parsed_past_object id version
          = (.error e, [.cache, .store]))
    ∧ (object_cache.get id (some version) = none →
        state_get_object id (some version) = .ok none →
        tx_get_object object_cache state_get_object try_get_parsed_past_object id version
          = (try_get_parsed_past_object id version, [.cache, .store, .rpc]))
    ∧ (∀ tr, (tx_get_object object_cache state_get_object try_get_parsed_past_object
          id version).2 = tr →
        (LookupTier.store ∈ tr → object_cache.get id (some version) = none)
        ∧ (LookupTier.rpc ∈ tr → object_cache.get id (some version) = none
            ∧ state_get_object id (some version) = .ok none)) := by
  refine ⟨?_, ?_, ?_, ?_, ?_⟩
  · intro o hc
    simp [tx_get_object, hc]
  · intro o hc hs
    simp [tx_get_object, hc, hs]
  · intro e hc hs
    simp [tx_get_object, hc, hs]
  · intro hc hs
    rcases hrpc : try_get_parsed_past_object id version with e | o <;>
      simp [tx_get_object, hc, hs, hrpc]
  · intro tr htr
    subst htr
    rcases hc : object_cache.get id (some version) with _ | o
    · rcases hs : state_get_object id (some version) with e | os
      · simp [tx_get_object, hc, hs]
      · rcases os with _ | o2
        · rcases hrpc : try_get_parsed_past_object id version with e | o2 <;>
            simp [tx_get_object, hc, hs, hrpc]
        · simp [tx_get_object, hc, hs]
    · simp [tx_get_object, hc]

/-- C5, instantiated: with `exObject` in the cache, the lookup at
`(1, 5)` returns it having consulted only the cache. -/
theorem C5_get_object_tiers_witness :
    tx_get_object exCache exStoreGetObject exRpc 1 5 = (.ok exObject, [.cache]) :=
  (C5_get_object_tiers exCache exStoreGetObject exRpc 1 5).1 exObject rfl

/-- The empty cache is well-formed. -/
theorem cacheWF_new : CacheWF InMemObjectCache.new := by
  intro i v o h
  cases h

/-- `insert_object` preserves cache well-formedness. -/
theorem cacheWF_insert (c : InMemObjectCache) (object : Object) (hwf : CacheWF c) :
    CacheWF (c.insert_object object) := by
  intro i v o h
  rw [InMemObjectCache.insert_object] at h
  dsimp only at h
  by_cases hk : i = object.id ∧ v = object.version
  · rw [if_pos hk] at h
    obtain rfl : object = o := Option.some.inj h
    exact ⟨hk.1.symm, hk.2.symm⟩
  · rw [if_neg hk] at h
    exact hwf i v o h

/-- C6: `find_object_lt_or_eq_version` is cache-exact, then cache-latest
(only when its version is within bound), then store — never the remote RPC —
with the store's `None` a panic and an over-bound store version an assertion
failure; and, on a well-formed cache, every returned object has version at
most the requested one. -/
theorem C6_find_object_lt_or_eq_version_spec (object_cache : InMemObjectCache)
    (state_get_object : ObjectID → Option Nat → Except IndexerError (Option Object))
    (id version : Nat) (hwf : CacheWF object_cache) :
    (∀ o, object_cache.get id (some version) = some o →
        tx_find_object_lt_or_eq_version object_cache state_get_object id version
          = (.ok (some o), [.cache]))
    ∧ (∀ o, object_cache.get id (some version) = none →
        object_cache.get id none = some o → o.version ≤ version →
        tx_find_object_lt_or_eq_version object_cache state_get_object id version
          = (.ok (some o), [.cache, .cache]))
    ∧ (object_cache.get id (some version) = none →
        (∀ o, object_cache.get id none = some o → version < o.version) →
        state_get_object id none = .ok none →
        tx_find_object_lt_or_eq_version object_cache state_get_object id version
          = (.error .storeObjectMissing, [.cache, .cache, .store]))
    ∧ (∀ o, object_cache.get id (some version) = none →
        (∀ o2, object_cache.get id none = some o2 → version < o2.version) →
        state_get_object id none = .ok (some o) →
        tx_find_object_lt_or_eq_version object_cache state_get_object id version
          = (if o.version ≤ version then (.ok (some o), [.cache, .cache, .store])
            else (.error .versionAssertFailed, [.cache, .cache, .store])))
    ∧ LookupTier.rpc ∉ (tx_find_object_lt_or_eq_version object_cache state_get_object
        id version).2
    ∧ (∀ o, (tx_find_object_lt_or_eq_version object_cache state_get_object id version).1
        = .ok (some o) → o.version ≤ version) := by
  refine ⟨?_, ?_, ?_, ?_, ?_, ?_⟩
  · intro o hc
    simp [tx_find_object_lt_or_eq_version, hc]
  · intro o hc hl hle
    simp [tx_find_object_lt_or_eq_version, hc, hl, hle]
  · intro hc hl hs
    rcases hlat : object_cache.get id none with _ | o
    · simp [tx_find_object_lt_or_eq_version, hc, hlat, hs]
    · simp [tx_find_object_lt_or_eq_version, hc, hlat, hs,
        Nat.not_le_of_lt (hl o hlat)]
  · intro o hc hl hs
    by_cases hle : o.version ≤ version
    · rcases hlat : object_cache.get id none with _ | o2
      · simp [tx_find_object_lt_or_eq_version, hc, hlat, hs, hle]
      · simp [tx_find_object_lt_or_eq_version, hc, hlat, hs, hle,
          Nat.not_le_of_lt (hl o2 hlat)]
    · rcases hlat : object_cache.get id none with _ | o2
      · simp [tx_find_object_lt_or_eq_version, hc, hlat, hs, hle]
      · simp [tx_find_object_lt_or_eq_version, hc, hlat, hs, hle,
          Nat.not_le_of_lt (hl o2 hlat)]
  · rcases hc : object_cache.get id (some version) with _ | o
    · rcases hlat : object_cache.get id none with _ | o
      · rcases hs : state_get_object id none with e | os
        · simp [tx_find_object_lt_or_eq_version, hc, hlat, hs]
        · rcases os with _ | o2
          · simp [tx_find_object_lt_or_eq_version, hc, hlat, hs]
          · by_cases hle : o2.version ≤ version <;>
              simp [tx_find_object_lt_or_eq_version, hc, hlat, hs, hle]
      · by_cases hle : o.version ≤ version
        · simp [tx_find_object_lt_or_eq_version, hc, hlat, hle]
        · rcases hs : state_get_object id none with e | os
          · simp [tx_find_object_lt_or_eq_version, hc, hlat, hle, hs]
          · rcases os with _ | o2
            · simp [tx_find_object_lt_or_eq_version, hc, hlat, hle, hs]
            · by_cases hle2 : o2.version ≤ version <;>
                simp [tx_find_object_lt_or_eq_version, hc, hlat, hle, hs, hle2]
    · simp [tx_find_object_lt_or_eq_version, hc]
  · intro o hres
    rcases hc : object_cache.get id (some version) with _ | oc
    · rcases hlat : object_cache.get id none with _ | ol
      · rcases hs : state_get_object id none with e | os
        · simp [tx_find_object_lt_or_eq_version, hc, hlat, hs] at hres
        · rcases os with _ | o2
          · simp [tx_find_object_lt_or_eq_version, hc, hlat, hs] at hres
          · by_cases hle : o2.version ≤ version
            · simp [tx_find_object_lt_or_eq_version, hc, hlat, hs, hle] at hres
              rw [← hres]
              exact hle
            · simp [tx_find_object_lt_or_eq_version, hc, hlat, hs, hle] at hres
      · by_cases hle : ol.version ≤ version
        · simp [tx_find_object_lt_or_eq_version, hc, hlat, hle] at hres
          rw [← hres]
          exact hle
        · rcases hs : state_get_object id none with e | os
          · simp [tx_find_object_lt_or_eq_version, hc, hlat, hle, hs] at hres
          · rcases os with _ | o2
            · simp [tx_find_object_lt_or_eq_version, hc, hlat, hle, hs] at hres
            · by_cases hle2 : o2.version ≤ version
              · simp [tx_find_object_lt_or_eq_version, hc, hlat, hle, hs, hle2] at hres
                rw [← hres]
                exact hle2
              · simp [tx_find_object_lt_or_eq_version, hc, hlat, hle, hs, hle2] at hres
    · simp [tx_find_object_lt_or_eq_version, hc] at hres
      rw [← hres]
      exact (hwf id version oc hc).2.le

/-- C6, instantiated: with `exObject = A@v5` in the cache (a well-formed
cache by `cacheWF_insert`), the `≤ 5` lookup at id 1 returns the exact cache
entry having consulted only the cache. -/
theorem C6_find_object_witness :
    tx_find_object_lt_or_eq_version exCache exStoreGetObject 1 5
      = (.ok (some exObject), [.cache]) :=
  (C6_find_object_lt_or_eq_version_spec exCache exStoreGetObject 1 5
    (cacheWF_insert _ _ cacheWF_new)).1 exObject rfl

/-- C7: at an end-of-epoch checkpoint `C` (nonzero sequence, end-of-epoch
data present, system state readable, epoch event found), `index_epoch`
closes the ended epoch `ss.epoch - 1` with
`epoch_total_transactions = network_total_transactions(C) −
get_network_total_transactions_previous_epoch(ss.epoch - 1)` and opens the
new epoch with `first_checkpoint_id = C + 1`; and (for `ss.epoch ≥ 2`) the
Postgres store read returns `max(network_total_transactions)` over the
stored checkpoints of epoch `ss.epoch - 2` — the network total at the last
checkpoint of the epoch before the ended one — so the recorded total is the
difference of the two epochs' ending network totals. -/
theorem C7_epoch_totals (stored : List StoredCheckpoint)
    (get_system_state : List Object → Except IndexerError SuiSystemStateSummary)
    (data : CheckpointData) (ss : SuiSystemStateSummary) (ev : Event)
    (hseq : data.checkpoint_summary.sequence_number ≠ 0)
    (heoe : data.checkpoint_summary.end_of_epoch_data ≠ none)
    (hss : get_system_state data.objects = .ok ss)
    (hev : find_epoch_event data.transactions = some ev) :
    (index_epoch
        (fun e => .ok (pg_get_network_total_transactions_previous_epoch stored e))
        get_system_state data).map
      (fun r => r.map (fun es =>
        (es.last_epoch.map (fun le => (le.epoch, le.epoch_total_transactions)),
          es.new_epoch.first_checkpoint_id)))
      = .ok (some (some (ss.epoch - 1,
          data.checkpoint_summary.network_total_transactions -
            pg_get_network_total_transactions_previous_epoch stored (ss.epoch - 1)),
          data.checkpoint_summary.sequence_number + 1))
    ∧ (2 ≤ ss.epoch →
        pg_get_network_total_transactions_previous_epoch stored (ss.epoch - 1)
          = (((stored.filter (fun c => c.epoch == ss.epoch - 2)).map
              (fun c => c.network_total_transactions)).max?).getD 0) := by
  constructor
  · rcases heod : data.checkpoint_summary.end_of_epoch_data with _ | eod
    · exact absurd heod heoe
    · simp only [index_epoch, if_neg hseq, heod, hss, hev]
      rfl
  · intro h2
    rw [pg_get_network_total_transactions_previous_epoch]
    have hfq : ∀ c : StoredCheckpoint,
        ((c.epoch : Int) == ((ss.epoch - 1 : Nat) : Int) - 1) = (c.epoch == ss.epoch - 2) := by
      intro c
      cases hb : (c.epoch == ss.epoch - 2)
      · rw [beq_eq_false_iff_ne] at hb
        rw [beq_eq_false_iff_ne]
        intro hq
        apply hb
        omega
      · rw [beq_iff_eq] at hb
        rw [beq_iff_eq]
        omega
    rw [List.filter_congr (fun c _ => hfq c)]

/-- C7, instantiated: the spec's scenario S4 — the last checkpoint of epoch 4
has network total 1000, the stored last checkpoint of epoch 3 has network
total 700 — yields a closing record for epoch 4 with
`epoch_total_transactions = 300` and a new epoch opening at checkpoint 41. -/
theorem C7_epoch_totals_witness :
    (index_epoch
        (fun e => .ok (pg_get_network_total_transactions_previous_epoch
          exStoredCheckpoints e))
        exGetSystemState exEpochCheckpointData).map
      (fun r => r.map (fun es =>
        (es.last_epoch.map (fun le => (le.epoch, le.epoch_total_transactions)),
          es.new_epoch.first_checkpoint_id)))
      = .ok (some (some (4, 300), 41)) :=
  (C7_epoch_totals exStoredCheckpoints exGetSystemState exEpochCheckpointData
    exSystemState exEpochEvent (by decide) (by decide) rfl rfl).1

/-- C4: in a commit iteration, `persist_checkpoints` appears in the trace
only when all five data writes succeeded; when it does, it carries exactly
the batch's checkpoint headers, it is the last call of the trace, and
everything before it is precisely the five data writes (flattened in input
order). -/
theorem C4_checkpoints_persisted_last (skip_db_commit : Bool)
    (success : PersistKind → Bool) (batch : List TemporaryCheckpointStoreV2)
    (cps : List IndexedCheckpoint)
    (h : PersistCall.checkpoints cps ∈ commit_iteration skip_db_commit success batch) :
    cps = batch.map (fun c => c.checkpoint)
    ∧ success .transactions = true ∧ success .tx_indices = true ∧ success .events = true
    ∧ success .object_changes = true ∧ success .packages = true
    ∧ (commit_iteration skip_db_commit success batch).getLast? = some (.checkpoints cps)
    ∧ (commit_iteration skip_db_commit success batch).dropLast
      = [.transactions ((batch.map (fun c => c.transactions)).flatten),
          .tx_indices ((batch.map (fun c => c.tx_indices)).flatten),
          .events ((batch.map (fun c => c.events)).flatten),
          .object_changes (batch.map (fun c => c.object_changes)),
          .packages ((batch.map (fun c => c.packages)).flatten)] := by
  cases skip_db_commit with
  | true =>
    rw [commit_iteration, if_pos rfl] at h
    cases h
  | false =>
    rw [commit_iteration, if_neg (by decide : ¬ (false = true))] at h
    rw [commit_iteration, if_neg (by decide : ¬ (false = true))]
    dsimp only at h ⊢
    by_cases hok : (success .transactions && success .tx_indices && success .events &&
        success .object_changes && success .packages) = true
    · rw [if_pos hok] at h ⊢
      simp only [Bool.and_eq_true] at hok
      obtain ⟨⟨⟨⟨h1, h2⟩, h3⟩, h4⟩, h5⟩ := hok
      simp only [List.mem_append, List.mem_cons, List.not_mem_nil, or_false] at h
      have hcps : cps = batch.map (fun c => c.checkpoint) := by
        rcases h with (hm | hm | hm | hm | hm) | hm
        · cases hm
        · cases hm
        · cases hm
        · cases hm
        · cases hm
        · exact (PersistCall.checkpoints.inj hm)
      subst hcps
      refine ⟨rfl, h1, h2, h3, h4, h5, ?_, ?_⟩
      · rw [List.getLast?_concat]
      · rw [List.dropLast_concat]
    · rw [if_neg hok] at h
      simp only [List.mem_cons, List.not_mem_nil, or_false] at h
      rcases h with hm | hm | hm | hm | hm <;> cases hm

/-- C4, instantiated: with one batch entry and all five writes succeeding,
the checkpoint-header write is the last call of the trace. -/
theorem C4_checkpoints_persisted_last_witness :
    (commit_iteration false (fun _ => true) [exBatchEntry]).getLast?
      = some (.checkpoints [exIndexedCheckpoint]) :=
  (C4_checkpoints_persisted_last false (fun _ => true) [exBatchEntry]
    [exIndexedCheckpoint] (by decide)).2.2.2.2.2.2.1

/-- `assocFind` misses exactly when no entry has the key. -/
theorem assocFind_eq_none_iff (m : List (ObjectID × IndexedObject)) (k : ObjectID) :
    assocFind m k = none ↔ ∀ p ∈ m, p.1 ≠ k := by
  rw [assocFind, Option.map_eq_none', List.find?_eq_none]
  constructor
  · intro h p hp
    have := h p hp
    simpa using this
  · intro h p hp
    simpa using h p hp

/-- An `assocFind` hit is an entry of the list at that key. -/
theorem assocFind_eq_some_mem (m : List (ObjectID × IndexedObject)) (k : ObjectID)
    (e : IndexedObject) (h : assocFind m k = some e) : (k, e) ∈ m := by
  rw [assocFind] at h
  rcases hq : m.find? (fun p => p.1 == k) with _ | q
  · rw [hq] at h
    cases h
  · rw [hq] at h
    obtain rfl : q.2 = e := Option.some.inj h
    have hk : q.1 = k := by
      have := List.find?_some hq
      simpa using this
    have hm : q ∈ m := List.mem_of_find?_eq_some hq
    rw [← hk]
    exact hm

/-- On a key-unique list, the entry pair determines the `assocFind` result. -/
theorem assocFind_of_mem_nodup (m : List (ObjectID × IndexedObject)) (k : ObjectID)
    (e : IndexedObject) (hn : (m.map Prod.fst).Nodup) (hm : (k, e) ∈ m) :
    assocFind m k = some e := by
  induction m with
  | nil => cases hm
  | cons q rest ih =>
    rw [List.map_cons, List.nodup_cons] at hn
    rcases List.mem_cons.mp hm with rfl | hm
    · rw [assocFind]
      rw [List.find?_cons_of_pos _ (by simp)]
      rfl
    · have hk : q.1 ≠ k := by
        intro hq
        apply hn.1
        rw [hq]
        exact List.mem_map_of_mem Prod.fst hm
      rw [assocFind, List.find?_cons_of_neg _ (by simp [hk])]
      exact ih hn.2 hm

/-- `assocReplace` does not change the key list. -/
theorem assocReplace_keys (m : List (ObjectID × IndexedObject)) (k : ObjectID)
    (io : IndexedObject) : (assocReplace m k io).map Prod.fst = m.map Prod.fst := by
  rw [assocReplace, List.map_map]
  refine List.map_congr_left ?_
  intro p _
  by_cases hp : p.1 = k
  · simp [hp]
  · simp [hp]

/-- Membership in `assocReplace`, by cases on the key. -/
theorem mem_assocReplace (m : List (ObjectID × IndexedObject)) (k : ObjectID)
    (io : IndexedObject) (q : ObjectID × IndexedObject) (hq : q ∈ assocReplace m k io) :
    (q.1 ≠ k ∧ q ∈ m) ∨ (q.1 = k ∧ q.2 = io) := by
  rw [assocReplace] at hq
  obtain ⟨p, hp, hpq⟩ := List.mem_map.mp hq
  by_cases hk : p.1 = k
  · rw [if_pos hk] at hpq
    right
    rw [← hpq]
    exact ⟨hk, rfl⟩
  · rw [if_neg hk] at hpq
    left
    rw [← hpq]
    exact ⟨hk, hp⟩

/-- The fold of `get_objects_to_commit` keeps a key-unique map whose entries
are stored under their own `object_id`, come from the input, and carry the
maximal `object_version` of their id; and every input id has an entry. -/
theorem commitFold_spec (l : List IndexedObject) :
    (((l.foldl commitEntryStep []).map Prod.fst).Nodup)
    ∧ (∀ p ∈ l.foldl commitEntryStep [], p.2.object_id = p.1 ∧ p.2 ∈ l
        ∧ ∀ io ∈ l, io.object_id = p.1 → io.object_version ≤ p.2.object_version)
    ∧ (∀ io ∈ l, ∃ p, p ∈ l.foldl commitEntryStep [] ∧ p.1 = io.object_id) := by
  induction l using List.reverseRecOn with
  | nil => refine ⟨?_, ?_, ?_⟩ <;> simp
  | append_singleton l o ih =>
    obtain ⟨ihn, ihe, ihc⟩ := ih
    have hstep : (l ++ [o]).foldl commitEntryStep [] =
        commitEntryStep (l.foldl commitEntryStep []) o := by
      rw [List.foldl_append]
      rfl
    rcases hfind : assocFind (l.foldl commitEntryStep []) o.object_id with _ | e
    · -- vacant: append a fresh entry
      have hnok : ∀ p ∈ l.foldl commitEntryStep [], p.1 ≠ o.object_id :=
        (assocFind_eq_none_iff _ _).mp hfind
      have hstep2 : (l ++ [o]).foldl commitEntryStep [] =
          l.foldl commitEntryStep [] ++ [(o.object_id, o)] := by
        rw [hstep, commitEntryStep, hfind]
      refine ⟨?_, ?_, ?_⟩
      · rw [hstep2, List.map_append, List.nodup_append]
        refine ⟨ihn, List.nodup_singleton _, ?_⟩
        intro k hk hk2
        obtain ⟨p, hp, hpk⟩ := List.mem_map.mp hk
        rw [List.map_singleton, List.mem_singleton] at hk2
        exact hnok p hp (hpk.trans hk2)
      · intro p hp
        rw [hstep2] at hp
        rcases List.mem_append.mp hp with hp | hp
        · obtain ⟨hid, hmem, hmax⟩ := ihe p hp
          refine ⟨hid, List.mem_append_left _ hmem, ?_⟩
          intro io hio hioid
          rcases List.mem_append.mp hio with hio | hio
          · exact hmax io hio hioid
          · rw [List.mem_singleton.mp hio] at hioid
            exact absurd hioid.symm (hnok p hp)
        · rw [List.mem_singleton.mp hp]
          refine ⟨rfl, List.mem_append_right _ (List.mem_singleton_self o), ?_⟩
          intro io hio hioid
          rcases List.mem_append.mp hio with hio | hio
          · obtain ⟨q, hq, hqk⟩ := ihc io hio
            exact absurd (hqk.trans hioid) (hnok q hq)
          · rw [List.mem_singleton.mp hio]
      · intro io hio
        rw [hstep2]
        rcases List.mem_append.mp hio with hio | hio
        · obtain ⟨q, hq, hqk⟩ := ihc io hio
          exact ⟨q, List.mem_append_left _ hq, hqk⟩
        · rw [List.mem_singleton.mp hio]
          exact ⟨(o.object_id, o), List.mem_append_right _ (List.mem_singleton_self _), rfl⟩
    · -- occupied
      have hein : (o.object_id, e) ∈ l.foldl commitEntryStep [] :=
        assocFind_eq_some_mem _ _ _ hfind
      obtain ⟨heid, hemem, hemax⟩ := ihe _ hein
      by_cases hlt : e.object_version < o.object_version
      · -- replace in place
        have hstep2 : (l ++ [o]).foldl commitEntryStep [] =
            assocReplace (l.foldl commitEntryStep []) o.object_id o := by
          rw [hstep, commitEntryStep, hfind]
          dsimp only
          rw [if_pos hlt]
        refine ⟨?_, ?_, ?_⟩
        · rw [hstep2, assocReplace_keys]
          exact ihn
        · intro p hp
          rw [hstep2] at hp
          rcases mem_assocReplace _ _ _ _ hp with ⟨hpk, hpm⟩ | ⟨hpk, hpe⟩
          · obtain ⟨hid, hmem, hmax⟩ := ihe p hpm
            refine ⟨hid, List.mem_append_left _ hmem, ?_⟩
            intro io hio hioid
            rcases List.mem_append.mp hio with hio | hio
            · exact hmax io hio hioid
            · rw [List.mem_singleton.mp hio] at hioid
              exact absurd hioid.symm hpk
          · refine ⟨(by rw [hpe, hpk]), (by
              rw [hpe]
              exact List.mem_append_right _ (List.mem_singleton_self o)), ?_⟩
            intro io hio hioid
            rw [hpe]
            rcases List.mem_append.mp hio with hio | hio
            · exact Nat.le_trans (hemax io hio (hioid.trans hpk)) (Nat.le_of_lt hlt)
            · rw [List.mem_singleton.mp hio]
        · intro io hio
          rw [hstep2]
          rcases List.mem_append.mp hio with hio | hio
          · obtain ⟨q, hq, hqk⟩ := ihc io hio
            by_cases hqo : q.1 = o.object_id
            · refine ⟨(q.1, o), ?_, hqk⟩
              rw [assocReplace]
              have : (fun p => if p.1 = o.object_id then (p.1, o) else p) q = (q.1, o) := by
                simp [hqo]
              rw [← this]
              exact List.mem_map_of_mem _ hq
            · refine ⟨q, ?_, hqk⟩
              rw [assocReplace]
              have : (fun p => if p.1 = o.object_id then (p.1, o) else p) q = q := by
                simp [hqo]
              rw [← this]
              exact List.mem_map_of_mem _ hq
          · rw [List.mem_singleton.mp hio]
            refine ⟨(o.object_id, o), ?_, rfl⟩
            rw [assocReplace]
            have : (fun p => if p.1 = o.object_id then (p.1, o) else p) (o.object_id, e)
                = (o.object_id, o) := by
              simp
            rw [← this]
            exact List.mem_map_of_mem _ hein
      · -- keep the existing entry
        have hstep2 : (l ++ [o]).foldl commitEntryStep [] = l.foldl commitEntryStep [] := by
          rw [hstep, commitEntryStep, hfind]
          dsimp only
          rw [if_neg hlt]
        rw [hstep2]
        refine ⟨ihn, ?_, ?_⟩
        · intro p hp
          obtain ⟨hid, hmem, hmax⟩ := ihe p hp
          refine ⟨hid, List.mem_append_left _ hmem, ?_⟩
          intro io hio hioid
          rcases List.mem_append.mp hio with hio | hio
          · exact hmax io hio hioid
          · rw [List.mem_singleton.mp hio] at hioid ⊢
            have hpe : p.2 = e := by
              have := assocFind_of_mem_nodup _ p.1 p.2 ihn (by
                have : (p.1, p.2) = p := rfl
                rw [this]
                exact hp)
              rw [← hioid] at this
              rw [hfind] at this
              exact (Option.some.inj this).symm
            rw [hpe]
            exact Nat.le_of_not_lt hlt
        · intro io hio
          rcases List.mem_append.mp hio with hio | hio
          · exact ihc io hio
          · rw [List.mem_singleton.mp hio]
            exact ⟨(o.object_id, e), hein, rfl⟩

/-- C10: `get_objects_to_commit` yields at most one mutated row per object
id — a row of that id from the batch carrying its maximal `object_version` —
and a deleted set holding exactly the ids (versions ignored) of the batch's
deleted refs; and `persist_object_changes` executes the deletion of those
ids after all mutation upserts, as the last statement of its single
transaction. -/
theorem C10_objects_to_commit_latest_and_order
    (tx_object_changes : List TransactionObjectChangesV2) :
    (((get_objects_to_commit tx_object_changes).1.map Prod.fst).Nodup)
    ∧ (∀ p ∈ (get_objects_to_commit tx_object_changes).1,
        p.2.object_id = p.1
        ∧ p.2 ∈ tx_object_changes.flatMap (fun c => c.changed_objects)
        ∧ ∀ io ∈ tx_object_changes.flatMap (fun c => c.changed_objects),
            io.object_id = p.1 → io.object_version ≤ p.2.object_version)
    ∧ (∀ i, i ∈ (get_objects_to_commit tx_object_changes).2 ↔
        ∃ r ∈ tx_object_changes.flatMap (fun c => c.deleted_objects), r.id = i)
    ∧ ((persist_object_changes tx_object_changes).getLast?
        = some (.deleteIds (get_objects_to_commit tx_object_changes).2))
    ∧ (∀ op ∈ (persist_object_changes tx_object_changes).dropLast, op.isUpsert = true) := by
  obtain ⟨hn, he, hc⟩ := commitFold_spec (tx_object_changes.flatMap (fun c => c.changed_objects))
  refine ⟨hn, he, ?_, ?_, ?_⟩
  · intro i
    rw [get_objects_to_commit]
    simp [List.mem_map]
  · rw [persist_object_changes, List.getLast?_concat]
  · intro op hop
    rw [persist_object_changes, List.dropLast_concat] at hop
    obtain ⟨rows, _, hrows⟩ := List.mem_map.mp hop
    rw [← hrows]
    rfl
